import Mathlib

/-!
Verification development for the diabete-rag repository.

We shallowly embed the document-cleaning pipeline of `src/text_cleaner.py`,
the configuration managers of `src/embedding_manager.py` and `src/llm.py`,
and the index build-or-load orchestration of `src/documents.py`.

Text is modelled as `List Char` (one element per Unicode code point, which is
exactly Python's `str` indexing/length model).  The Python code works through
`re.sub`; every substitution is embedded as a left-to-right scanner that, at
each position, either finds the (leftmost, greedy, Python-semantics) match of
the regex and replaces it, or emits one character and moves on — which is
precisely `re.sub`'s behaviour.  The scanners carry one character of context
(the previous input character) because the only zero-width assertions used by
the source's regexes (`\b`, `^` in MULTILINE mode) depend only on the
previous character.  Scanners take an explicit fuel argument (always called
with fuel = length of the input, which is sufficient since every step of the
scan consumes at least one input character); this keeps all definitions
structurally recursive and kernel-evaluable.
-/

namespace DiabeteRag

abbrev Text := List Char

/-- Python's `\w` character class (word character).  Python's `re` is
Unicode-aware; we cover ASCII alphanumerics, the underscore, and the accented
letters that occur in the source's replacement strings and in the inputs of
interest. -/
def pyWordChar (c : Char) : Bool :=
  c.isAlpha || c.isDigit || c = '_' ||
  c ∈ ['à', 'â', 'ç', 'è', 'é', 'ê', 'ë', 'î', 'ï', 'ô', 'û', 'ù', 'ü']

/-- Python's `\s` character class (and the default strip set of `str.strip`)
restricted to ASCII; the only non-ASCII whitespace relevant to the pipeline,
U+00A0, is replaced by a plain space before any `\s`/`strip` is applied. -/
def pyWhitespaceChar (c : Char) : Bool :=
  c = ' ' || c = '\t' || c = '\n' || c = '\r' || c = '\x0b' || c = '\x0c'

/-- Generic embedding of `re.sub(pattern, repl, s)`: scan left to right;
at each position either the matcher fires — returning the replacement text,
the remaining input after the match, and the scanner state at the resume
position — or one character is emitted and the state is stepped.  `σ` is the
one-character context needed by the zero-width assertions (`\b` / MULTILINE
`^`): it is a function of the previous character of the *input* string,
which is why a firing matcher must also return the state derived from the
last character it consumed. -/
def scanSub {σ : Type} (step : σ → Char → σ)
    (m : σ → Text → Option (Text × Text × σ)) : Nat → σ → Text → Text
  | 0, _, s => s
  | _ + 1, _, [] => []
  | fuel + 1, st, c :: rest =>
    match m st (c :: rest) with
    | some (out, rest', st') => out ++ scanSub step m fuel st' rest'
    | none => c :: scanSub step m fuel (step st c) rest

/-- State step for scanners whose assertions need "previous char is a word
character" (`\b`). -/
def prevWordStep (_ : Bool) (c : Char) : Bool := pyWordChar c

/-- State step for scanners whose assertions need "we are at a line start"
(MULTILINE `^`). -/
def lineStartStep (_ : Bool) (c : Char) : Bool := c = '\n'

/-- `\b` to the right of a just-consumed word character: the next character
must not be a word character (or we are at the end of the string). -/
def wordBoundaryAfter (t : Text) : Bool :=
  match t with
  | [] => true
  | c :: _ => !pyWordChar c

/-! ## TextCleaner.clean_special_characters (src/text_cleaner.py:96-125) -/

/-- The `replacements` table of `clean_special_characters`.  The sequential
`str.replace` calls of the source are equivalent to one simultaneous
character map because the eight targets are distinct and none of the
replacement strings contains a target. -/
def replaceSpecialChar (c : Char) : Text :=
  if c = ' ' then [' ']
  else if c = '‘' then ['\'']
  else if c = '’' then ['\'']
  else if c = '“' then ['"']
  else if c = '”' then ['"']
  else if c = '–' then ['-']
  else if c = '—' then ['-']
  else if c = '…' then ['.', '.', '.']
  else [c]

/-- The control characters removed by
`re.sub(r'[\x00-\x08\x0b-\x0c\x0e-\x1f\x7f-\x9f]', '', text)`. -/
def isStrippedControl (c : Char) : Bool :=
  c.toNat ≤ 0x08 || c.toNat = 0x0b || c.toNat = 0x0c ||
  (0x0e ≤ c.toNat && c.toNat ≤ 0x1f) ||
  (0x7f ≤ c.toNat && c.toNat ≤ 0x9f)

def clean_special_characters (s : Text) : Text :=
  ((s.map replaceSpecialChar).flatten).filter (fun c => !isStrippedControl c)

/-! ## TextCleaner.fix_hyphenation (src/text_cleaner.py:127-141)

`re.sub(r'(\w+)-\s*\n\s*(\w+)', r'\1\2', text)`.  A match at a position is:
a maximal nonempty word-character run, a `-`, a whitespace run containing at
least one newline (the greedy `\s*\n\s*` always consumes the whole run when
it contains a newline), then a maximal nonempty word-character run.  The two
word runs are kept, the hyphen and the whitespace are dropped. -/

def hyphMatch (_ : Unit) (s : Text) : Option (Text × Text × Unit) :=
  let w1 := s.takeWhile pyWordChar
  if w1.isEmpty then none
  else
    match s.drop w1.length with
    | '-' :: t =>
      let ws := t.takeWhile pyWhitespaceChar
      if ws.contains '\n' then
        let t2 := t.drop ws.length
        let w2 := t2.takeWhile pyWordChar
        if w2.isEmpty then none
        else some (w1 ++ w2, t2.drop w2.length, ())
      else none
    | _ => none

def fix_hyphenation (s : Text) : Text :=
  scanSub (fun _ _ => ()) hyphMatch s.length () s

/-! ## TextCleaner.remove_page_numbers (src/text_cleaner.py:41-59)

Three substitutions, in source order:
1. `re.sub(r'^\s*\d+\s*$', '', text, flags=re.MULTILINE)`
2. `re.sub(r'\b[Pp]age\s+\d+\b', '', text)`
3. `re.sub(r'\bp\.\s*\d+\b', '', text)` -/

/-- The trailing `\s*$` of pattern 1 (with `$` in MULTILINE mode): the greedy
`\s*` consumes the longest prefix of the trailing whitespace run after which
the string ends or a `'\n'` follows.  Returns that prefix length, if any
choice satisfies `$`. -/
def dollarStop (ws2 t3 : Text) : Option Nat :=
  (List.range (ws2.length + 1)).reverse.find? (fun p =>
    (p == ws2.length && t3.isEmpty) || ws2[p]? == some '\n')

/-- Match of `^\s*\d+\s*$` (MULTILINE) at a line-start position.  `\s` and
`\d` are disjoint, so the greedy `\s*` and `\d+` are forced to the maximal
runs; only the trailing `\s*` backtracks (`dollarStop`).  The resulting
scanner state records whether the last consumed character was a newline
(i.e. whether the resume position is again a line start). -/
def digitLineMatch (atLineStart : Bool) (s : Text) : Option (Text × Text × Bool) :=
  if !atLineStart then none
  else
    let ws1 := s.takeWhile pyWhitespaceChar
    let t1 := s.drop ws1.length
    let ds := t1.takeWhile Char.isDigit
    if ds.isEmpty then none
    else
      let t2 := t1.drop ds.length
      let ws2 := t2.takeWhile pyWhitespaceChar
      let t3 := t2.drop ws2.length
      match dollarStop ws2 t3 with
      | none => none
      | some p =>
        let consumed := ws1 ++ ds ++ ws2.take p
        some ([], ws2.drop p ++ t3, consumed.getLast? == some '\n')

/-- Match of `\b[Pp]age\s+\d+\b`; the previous input character must not be a
word character (`\b` before `P`/`p`), and the character after the maximal
digit run must not be one (`\b` after `\d+`; the pattern admits no other
backtracking, since `\s`/`\d` and the literals are pairwise disjoint). -/
def pageNMatch (prevWord : Bool) (s : Text) : Option (Text × Text × Bool) :=
  if prevWord then none
  else
    match s with
    | c :: t =>
      if (c == 'P' || c == 'p') && t.take 3 == ['a', 'g', 'e'] then
        let t1 := t.drop 3
        let ws := t1.takeWhile pyWhitespaceChar
        if ws.isEmpty then none
        else
          let t2 := t1.drop ws.length
          let ds := t2.takeWhile Char.isDigit
          if ds.isEmpty then none
          else
            let t3 := t2.drop ds.length
            if wordBoundaryAfter t3 then some ([], t3, true) else none
      else none
    | [] => none

/-- Match of `\bp\.\s*\d+\b` (lower-case `p` only). -/
def pDotMatch (prevWord : Bool) (s : Text) : Option (Text × Text × Bool) :=
  if prevWord then none
  else
    match s with
    | 'p' :: '.' :: t =>
      let ws := t.takeWhile pyWhitespaceChar
      let t1 := t.drop ws.length
      let ds := t1.takeWhile Char.isDigit
      if ds.isEmpty then none
      else
        let t2 := t1.drop ds.length
        if wordBoundaryAfter t2 then some ([], t2, true) else none
    | _ => none

def remove_page_numbers (s : Text) : Text :=
  let s1 := scanSub lineStartStep digitLineMatch s.length true s
  let s2 := scanSub prevWordStep pageNMatch s1.length false s1
  scanSub prevWordStep pDotMatch s2.length false s2

/-! ## TextCleaner.remove_headers_footers (src/text_cleaner.py:61-94) -/

/-- Python `str.strip()` on a line (no newline inside). -/
def pyStrip (l : Text) : Text :=
  ((l.dropWhile pyWhitespaceChar).reverse.dropWhile pyWhitespaceChar).reverse

/-- Python `text.split('\n')`. -/
def splitOnNl : Text → List Text
  | [] => [[]]
  | c :: rest =>
    if c = '\n' then [] :: splitOnNl rest
    else
      match splitOnNl rest with
      | l :: ls => (c :: l) :: ls
      | [] => [[c]]

/-- Python `'\n'.join(lines)`. -/
def joinNl : List Text → Text
  | [] => []
  | [l] => l
  | l :: ls => l ++ '\n' :: joinNl ls

/-- A line is removed when its stripped form is nonempty, shorter than 100
characters, and its stripped form occurs at least `min_repetition` times
among the stripped lines of the document.  (The source counts only nonempty
short stripped lines in `line_counts`, but whether a stripped value is
counted depends only on the value itself, so the count of a nonempty short
value equals its plain count among all stripped lines.) -/
def isRepetitiveLine (strippedLines : List Text) (minRep : Nat) (line : Text) : Bool :=
  let st := pyStrip line
  !st.isEmpty && decide (st.length < 100) && decide (minRep ≤ strippedLines.count st)

def remove_headers_footers (minRep : Nat) (s : Text) : Text :=
  let lines := splitOnNl s
  let strippedLines := lines.map pyStrip
  joinNl (lines.filter (fun l => !isRepetitiveLine strippedLines minRep l))

/-! ## TextCleaner.remove_urls_and_emails (src/text_cleaner.py:143-160)

1. `re.sub(r'http[s]?://(?:[a-zA-Z]|[0-9]|[$-_@.&+]|[!*\\(\\),]|(?:%[0-9a-fA-F][0-9a-fA-F]))+', '', text)`
2. `re.sub(r'\b[A-Za-z0-9._%+-]+@[A-Za-z0-9.-]+\.[A-Z|a-z]{2,}\b', '', text)` -/

/-- The URL body character class.  Note `[$-_@.&+]` is a *range* from `$`
(0x24) to `_` (0x5f) — it covers `%`, digits, `:`, `/`, uppercase letters and
more — and `[!*\\(\\),]` contributes `!`, `*`, `\`, `(`, `)`, `,`; the
`%xx` alternative is subsumed by the range.  A code point belongs to the
class iff it is an ASCII letter, in 0x24–0x5f, or one of those six. -/
def urlChar (c : Char) : Bool :=
  c.isAlpha || (0x24 ≤ c.toNat && c.toNat ≤ 0x5f) ||
  c == '!' || c == '*' || c == '\\' || c == '(' || c == ')' || c == ','

/-- Match of the URL pattern: the literal protocol prefix (`s?` greedy, so
`https://` is tried before `http://`) followed by at least one `urlChar`. -/
def urlMatch (_ : Unit) (s : Text) : Option (Text × Text × Unit) :=
  let tryBody : Text → Option (Text × Text × Unit) := fun t =>
    let run := t.takeWhile urlChar
    if run.isEmpty then none else some ([], t.drop run.length, ())
  if ['h', 't', 't', 'p', 's', ':', '/', '/'].isPrefixOf s then tryBody (s.drop 8)
  else if ['h', 't', 't', 'p', ':', '/', '/'].isPrefixOf s then tryBody (s.drop 7)
  else none

def emailLocalChar (c : Char) : Bool :=
  c.isAlpha || c.isDigit || c == '.' || c == '_' || c == '%' || c == '+' || c == '-'

def emailDomChar (c : Char) : Bool :=
  c.isAlpha || c.isDigit || c == '.' || c == '-'

/-- `[A-Z|a-z]`: ASCII letters and the literal `|`. -/
def emailTldChar (c : Char) : Bool :=
  c.isAlpha || c == '|'

/-- `\b` between a just-consumed character and the rest of the input:
exactly one side is a word character (end of input counts as non-word). -/
def boundaryBetween (last : Char) (rest : Text) : Bool :=
  match rest with
  | [] => pyWordChar last
  | c :: _ => pyWordChar last != pyWordChar c

/-- The `[A-Z|a-z]{2,}\b` tail: given the maximal run `trun` of tld-class
characters and the input following it, the greedy `{2,}` takes the longest
prefix of length ≥ 2 after which `\b` holds (backtracking from the right). -/
def emailTldSearch (trun after : Text) : Option Nat :=
  (List.range (trun.length + 1)).reverse.find? (fun t =>
    decide (2 ≤ t) &&
      (match (trun.take t).getLast? with
       | some lastc => boundaryBetween lastc (trun.drop t ++ after)
       | none => false))

/-- The `[A-Za-z0-9.-]+\.[A-Z|a-z]{2,}\b` tail after `@`: the greedy `+`
backtracks over the `.`-positions of the maximal domain-class run `run`
from the rightmost dot leftwards (the part before the dot must be
nonempty); for each dot the tld part is searched greedily. -/
def emailDotSearch (rest1 run : Text) : Option (Nat × Nat) :=
  ((List.range run.length).reverse.filterMap (fun i =>
    if decide (1 ≤ i) && run[i]? == some '.' then
      let t1 := rest1.drop (i + 1)
      let trun := t1.takeWhile emailTldChar
      match emailTldSearch trun (t1.drop trun.length) with
      | some t => some (i, t)
      | none => none
    else none)).head?

/-- Match of the email pattern at a position: `\b` (exactly one of the
previous character and the first local-part character is a word character),
a maximal nonempty local-part run, `@`, then the domain search. -/
def emailMatch (prevWord : Bool) (s : Text) : Option (Text × Text × Bool) :=
  match s with
  | [] => none
  | c :: _ =>
    if !emailLocalChar c then none
    else if prevWord == pyWordChar c then none
    else
      let lrun := s.takeWhile emailLocalChar
      match s.drop lrun.length with
      | '@' :: rest1 =>
        let run := rest1.takeWhile emailDomChar
        if run.isEmpty then none
        else
          match emailDotSearch rest1 run with
          | some (i, t) =>
            let t1 := rest1.drop (i + 1)
            let trun := t1.takeWhile emailTldChar
            some ([], t1.drop t,
              match (trun.take t).getLast? with
              | some lc => pyWordChar lc
              | none => false)
          | none => none
      | _ => none

def remove_urls_and_emails (s : Text) : Text :=
  let s1 := scanSub (fun _ _ => ()) urlMatch s.length () s
  scanSub prevWordStep emailMatch s1.length false s1

/-! ## TextCleaner.normalize_medical_terms (src/text_cleaner.py:162-184)

Four substitutions applied in the source's dict order, each
`re.sub(r'\bPAT\b', rep, text, flags=re.IGNORECASE)` with `PAT` one of
`DT1`, `DT2`, `HbA1c`, `IMC`.  Every pattern starts and ends with a word
character, so `\b` means: previous input character not a word character,
and next input character after the match not a word character. -/

/-- Match of `\bpat\b` case-insensitively (`pat` is stored lower-case; the
patterns are ASCII so Python's IGNORECASE agrees with `Char.toLower`). -/
def wordSubCIMatch (pat rep : Text) (prevWord : Bool) (s : Text) :
    Option (Text × Text × Bool) :=
  if prevWord then none
  else if (s.take pat.length).map Char.toLower == pat then
    let rest := s.drop pat.length
    if wordBoundaryAfter rest then
      some (rep, rest,
        match (s.take pat.length).getLast? with
        | some lc => pyWordChar lc
        | none => prevWord)
    else none
  else none

def subWordCI (pat rep : Text) (s : Text) : Text :=
  scanSub prevWordStep (wordSubCIMatch pat rep) s.length false s

def normalize_medical_terms (s : Text) : Text :=
  let s1 := subWordCI "dt1".toList "diabète de type 1".toList s
  let s2 := subWordCI "dt2".toList "diabète de type 2".toList s1
  let s3 := subWordCI "hba1c".toList "hémoglobine glyquée".toList s2
  subWordCI "imc".toList "indice de masse corporelle".toList s3

/-! ## TextCleaner.clean_whitespace (src/text_cleaner.py:19-39)

1. `re.sub(r' +', ' ', text)` — collapse runs of the space character;
2. `re.sub(r'\n\s*\n\s*\n+', '\n\n', text)`;
3. strip every line and rejoin with `'\n'`;
4. `str.strip()` the whole text. -/

def collapseSpaces : Text → Text
  | [] => []
  | [c] => [c]
  | c :: d :: rest =>
    if c == ' ' && d == ' ' then collapseSpaces (d :: rest)
    else c :: collapseSpaces (d :: rest)

/-- Match of `\n\s*\n\s*\n+` at a position: a literal `\n`, then the two
greedy `\s*` backtrack over newline positions of the following whitespace
run (outer first, each from the right), and the final `\n+` takes the
maximal newline run.  Replaced by `"\n\n"`. -/
def nlRunMatch (_ : Unit) (s : Text) : Option (Text × Text × Unit) :=
  match s with
  | '\n' :: t =>
    let wsrun := t.takeWhile pyWhitespaceChar
    ((List.range wsrun.length).reverse.filterMap (fun b =>
      if wsrun[b]? == some '\n' then
        let t' := t.drop (b + 1)
        let run2 := t'.takeWhile pyWhitespaceChar
        match (List.range run2.length).reverse.find? (fun d => run2[d]? == some '\n') with
        | some d =>
          let tail2 := t'.drop d
          let e := tail2.takeWhile (fun c => c == '\n')
          some (['\n', '\n'], tail2.drop e.length, ())
        | none => none
      else none)).head?
  | _ => none

def clean_whitespace (s : Text) : Text :=
  let s1 := collapseSpaces s
  let s2 := scanSub (fun _ _ => ()) nlRunMatch s1.length () s1
  let s3 := joinNl ((splitOnNl s2).map pyStrip)
  pyStrip s3

/-! ## TextCleaner.clean_document (src/text_cleaner.py:186-229) -/

/-- Metadata values (the shapes used by the pipeline: the original metadata
of a loaded document, plus the `cleaned` flag and the empty `headlines`
list added by `clean_document`). -/
inductive MetaVal where
  | boolVal : Bool → MetaVal
  | strVal : String → MetaVal
  | intVal : Int → MetaVal
  | listStrVal : List String → MetaVal
deriving DecidableEq, Repr

/-- A LlamaIndex `Document` as used by the pipeline: text plus a metadata
dict (association list with unique keys, insertion-ordered like a Python
dict). -/
structure Document where
  text : Text
  metadata : List (String × MetaVal)
deriving DecidableEq, Repr

/-- Python dict update `{**m, k: v}`: an existing key keeps its position and
gets the new value; a new key is appended. -/
def dictSet (m : List (String × MetaVal)) (k : String) (v : MetaVal) :
    List (String × MetaVal) :=
  if (m.lookup k).isSome then m.map (fun kv => if kv.1 = k then (k, v) else kv)
  else m ++ [(k, v)]

/-- The text pipeline of `clean_document`, in source order. -/
def cleanPipeline (remove_urls normalize_medical : Bool) (min_repetition : Nat)
    (t : Text) : Text :=
  let t1 := clean_special_characters t
  let t2 := fix_hyphenation t1
  let t3 := remove_page_numbers t2
  let t4 := remove_headers_footers min_repetition t3
  let t5 := if remove_urls then remove_urls_and_emails t4 else t4
  let t6 := if normalize_medical then normalize_medical_terms t5 else t5
  clean_whitespace t6

/-- `TextCleaner.clean_document`: a *new* document is returned whose text is
the cleaned text and whose metadata is
`{**doc.metadata, 'cleaned': True, 'headlines': []}`. -/
def clean_document (remove_urls normalize_medical : Bool) (min_repetition : Nat)
    (doc : Document) : Document :=
  { text := cleanPipeline remove_urls normalize_medical min_repetition doc.text,
    metadata :=
      dictSet (dictSet doc.metadata "cleaned" (.boolVal true)) "headlines"
        (.listStrVal []) }

/-- `TextCleaner.clean_documents` (src/text_cleaner.py:231-256). -/
def clean_documents (remove_urls normalize_medical : Bool) (min_repetition : Nat)
    (docs : List Document) : List Document :=
  docs.map (clean_document remove_urls normalize_medical min_repetition)

/-! ## Substring containment (for checking error messages and output text) -/

/-- `needle` occurs contiguously inside `hay`. -/
def containsSub (needle hay : Text) : Bool :=
  (List.range (hay.length + 1)).any (fun i => needle.isPrefixOf (hay.drop i))

def strContains (needle hay : String) : Bool :=
  containsSub needle.toList hay.toList

/-! ## EmbeddingManager (src/embedding_manager.py) -/

/-- The process environment: `os.getenv` returns the variable's value or
`None`. -/
structure Env where
  get : String → Option String

/-- Truthiness of `os.getenv`'s result as tested by `if not api_key:`
(both a missing variable and an empty string are falsy). -/
def truthy : Option String → Bool
  | none => false
  | some s => !s.isEmpty

/-- The embedding model object built by the two `_configure_*` methods. -/
inductive EmbedModel where
  | openAI (model apiBase apiKey : String)
  | huggingFace (modelName device : String) (maxLength : Int)
deriving DecidableEq, Repr

structure EmbeddingManager where
  provider : String
  embedModel : EmbedModel
deriving DecidableEq, Repr

def SUPPORTED_PROVIDERS : List String := ["azure", "local"]

/-- `EmbeddingManager._configure_azure_embeddings`
(src/embedding_manager.py:48-70): each of the three required variables is
tested for truthiness in source order and a `ValueError` naming the
variable is raised for the first falsy one. -/
def configureAzureEmbeddings (env : Env) : Except String EmbedModel :=
  let apiKey := env.get "EMBEDDING_API_KEY"
  let apiBase := env.get "EMBEDDING_API_BASE"
  let modelName := env.get "EMBEDDING_MODEL_NAME"
  if !truthy apiKey then .error "EMBEDDING_API_KEY not found in .env"
  else if !truthy apiBase then .error "EMBEDDING_API_BASE not found in .env"
  else if !truthy modelName then .error "EMBEDDING_MODEL_NAME not found in .env"
  else .ok (.openAI (modelName.getD "") (apiBase.getD "") (apiKey.getD ""))

def digitsToNat (ds : Text) : Nat :=
  ds.foldl (fun acc c => acc * 10 + (c.toNat - 48)) 0

/-- Python `int(s)` on a decimal literal: optional surrounding whitespace,
an optional sign, then at least one digit; anything else raises
`ValueError`. -/
def pyIntParse (s : String) : Except String Int :=
  let t := pyStrip s.toList
  let core : Option Int :=
    match t with
    | '+' :: ds =>
      if !ds.isEmpty && ds.all Char.isDigit then some (digitsToNat ds) else none
    | '-' :: ds =>
      if !ds.isEmpty && ds.all Char.isDigit then some (-(digitsToNat ds : Int)) else none
    | ds =>
      if !ds.isEmpty && ds.all Char.isDigit then some (digitsToNat ds) else none
  match core with
  | some n => .ok n
  | none => .error ("invalid literal for int() with base 10: '" ++ s ++ "'")

/-- `EmbeddingManager._configure_local_embeddings`
(src/embedding_manager.py:72-93): all variables are optional and default. -/
def configureLocalEmbeddings (env : Env) : Except String EmbedModel :=
  let modelName := (env.get "EMBEDDING_MODEL_NAME").getD "BAAI/bge-large-en-v1.5"
  let device := (env.get "EMBEDDING_DEVICE").getD "cpu"
  match pyIntParse ((env.get "EMBEDDING_MAX_LENGTH").getD "512") with
  | .error e => .error e
  | .ok maxLength => .ok (.huggingFace modelName device maxLength)

/-- Python `str.lower()` (ASCII case mapping suffices for the provider
strings in play). -/
def strToLower (s : String) : String :=
  ⟨s.data.map Char.toLower⟩

/-- `os.getenv("EMBEDDING_PROVIDER", "azure").lower()`
(src/embedding_manager.py:24). -/
def resolvedProvider (env : Env) : String :=
  strToLower ((env.get "EMBEDDING_PROVIDER").getD "azure")

/-- The `ValueError` message for an unsupported provider
(src/embedding_manager.py:27-30). -/
def providerErrorMsg (provider : String) : String :=
  "EMBEDDING_PROVIDER must be one of ['azure', 'local'], got '" ++ provider ++ "'"

/-- `EmbeddingManager.__init__` (src/embedding_manager.py:16-46): resolve
and lower-case the provider (defaulting to `azure`), validate it against
`SUPPORTED_PROVIDERS` before anything else, then route to the matching
configuration method.  No filesystem or network access happens here: the
whole computation is a function of the environment alone. -/
def embeddingManagerInit (env : Env) : Except String EmbeddingManager :=
  let provider := resolvedProvider env
  if provider ∉ SUPPORTED_PROVIDERS then .error (providerErrorMsg provider)
  else if provider = "azure" then
    (configureAzureEmbeddings env).map (fun m => ⟨provider, m⟩)
  else
    (configureLocalEmbeddings env).map (fun m => ⟨provider, m⟩)

/-! ## LlmManager (src/llm.py) -/

/-- The `OpenAILike` LLM object built by `LlmManager.__init__`. -/
structure OpenAILike where
  model : String
  apiKey : String
  apiBase : String
  isChatModel : Bool
deriving DecidableEq, Repr

/-- `LlmManager.__init__` (src/llm.py:14-51): the three required variables
are tested for truthiness in source order; a `ValueError` naming the
variable is raised for the first falsy one, before any LLM call. -/
def llmManagerInit (env : Env) : Except String OpenAILike :=
  let apiKey := env.get "LLM_API_KEY"
  let apiBase := env.get "LLM_API_BASE"
  let modelName := env.get "LLM_MODEL_NAME"
  if !truthy apiKey then .error "LLM_API_KEY not found in .env"
  else if !truthy apiBase then .error "LLM_API_BASE not found in .env"
  else if !truthy modelName then .error "LLM_MODEL_NAME not found in .env"
  else .ok ⟨modelName.getD "", apiKey.getD "", apiBase.getD "", true⟩

/-! ## EmbedderRag.build_or_load_index (src/documents.py:52-116) -/

/-- The filesystem as consulted by `build_or_load_index`: `os.path.exists`,
`os.path.isdir`, and the documents that `SimpleDirectoryReader(path)`
followed by `load_data()` yields for a path. -/
structure FileSystem where
  pathExists : String → Bool
  isDir : String → Bool
  load : String → List Document

structure EmbedderRagConfig where
  input_path : String
  persist_dir : String
  clean_text : Bool
  remove_urls : Bool
  normalize_medical : Bool
deriving DecidableEq, Repr

/-- The outcome of one invocation of `build_or_load_index`: either a fresh
index was built from the loaded (and optionally cleaned) documents and
persisted to `persist_dir`, or the persisted index was loaded back from
`persist_dir`. -/
inductive IndexOutcome where
  | builtFrom (docs : List Document) (persistedTo : String)
  | loadedFrom (persistDir : String)
deriving DecidableEq, Repr

/-- `EmbedderRag.build_or_load_index` (src/documents.py:52-116).  The only
branch condition is `os.path.exists(self.persist_dir)`; in the build branch
the documents are loaded from `input_path` and cleaned when `clean_text`
(the source's call to `clean_documents` leaves `min_repetition` at its
default 3); in the load branch nothing is read from `input_path`. -/
def build_or_load_index (fs : FileSystem) (cfg : EmbedderRagConfig) : IndexOutcome :=
  if !fs.pathExists cfg.persist_dir then
    let documents := fs.load cfg.input_path
    let documents :=
      if cfg.clean_text then
        clean_documents cfg.remove_urls cfg.normalize_medical 3 documents
      else documents
    .builtFrom documents cfg.persist_dir
  else .loadedFrom cfg.persist_dir

/-! ## Chunker (spec-modelled) -/

/-- Modelled from the spec: the chunker itself is LlamaIndex library code
and is not among this repository's sources — `src/documents.py:46-48` only
sets `Settings.chunk_size = 800` and `Settings.chunk_overlap = 100`, and
`src/documents.py:104` invokes the library on the documents.  Spec §4.3/§8
describe chunking as deterministic fixed-size splitting with overlap:
successive chunks start `chunk_size - chunk_overlap` characters apart and
have length `chunk_size`, except the final chunk, which may be shorter.
Fuel is the text length, sufficient whenever `chunk_overlap < chunk_size`. -/
def chunkText (chunkSize chunkOverlap : Nat) : Nat → Text → List Text
  | 0, s => [s]
  | fuel + 1, s =>
    if s.length ≤ chunkSize then [s]
    else
      s.take chunkSize ::
        chunkText chunkSize chunkOverlap fuel (s.drop (chunkSize - chunkOverlap))

def chunk_document (chunkSize chunkOverlap : Nat) (s : Text) : List Text :=
  chunkText chunkSize chunkOverlap s.length s

/-! ## Vector index and similarity search (spec-modelled) -/

/-- Modelled from the spec: the vector index and its similarity search are
LlamaIndex library code, not among this repository's sources —
`src/main.py:21` configures `similarity_top_k=5` on the library's query
engine.  Spec §4.5: `build` is one-shot bulk construction over
`(chunk, embedding_vector)` pairs with a unique identifier assigned at
insertion; `search` returns the `top_k` entries by descending similarity,
ties broken by insertion order (stable). -/
structure IndexEntry where
  entryId : Nat
  chunk : Text
  vec : List Int
deriving DecidableEq, Repr

def buildIndexFrom (i : Nat) : List (Text × List Int) → List IndexEntry
  | [] => []
  | (c, v) :: rest => ⟨i, c, v⟩ :: buildIndexFrom (i + 1) rest

def buildIndex (chunks : List (Text × List Int)) : List IndexEntry :=
  buildIndexFrom 0 chunks

/-- The similarity metric (spec §4.5 allows "cosine similarity or an
equivalent metric"; the inner product keeps the model exact). -/
def dotScore (q v : List Int) : Int :=
  (List.zipWith (fun a b => a * b) q v).sum

/-- Modelled from the spec: `search(query_vector, top_k)` — score every
entry, stable-sort by descending score, take `top_k`. -/
def searchIndex (idx : List IndexEntry) (q : List Int) (k : Nat) :
    List (IndexEntry × Int) :=
  let scored := idx.map (fun e => (e, dotScore q e.vec))
  (scored.mergeSort (fun a b => decide (b.2 ≤ a.2))).take k

/-- C4/C10 need to state results about `Except` values concretely. -/
instance {ε α : Type} [DecidableEq ε] [DecidableEq α] :
    DecidableEq (Except ε α) := fun a b =>
  match a, b with
  | .ok x, .ok y =>
    if h : x = y then isTrue (by rw [h]) else isFalse (by simp [h])
  | .error x, .error y =>
    if h : x = y then isTrue (by rw [h]) else isFalse (by simp [h])
  | .ok _, .error _ => isFalse (by simp)
  | .error _, .ok _ => isFalse (by simp)

/-- An environment with every provider key set, and `EMBEDDING_PROVIDER`
as given. -/
def envWithProvider (provider : Option String) : Env :=
  ⟨fun k =>
    if k = "EMBEDDING_PROVIDER" then provider
    else if k = "EMBEDDING_API_KEY" then some "test-key"
    else if k = "EMBEDDING_API_BASE" then some "https://api.example.test"
    else if k = "EMBEDDING_MODEL_NAME" then some "test-embedding-model"
    else if k = "LLM_API_KEY" then some "test-key"
    else if k = "LLM_API_BASE" then some "https://llm.example.test"
    else if k = "LLM_MODEL_NAME" then some "test-llm-model"
    else none⟩

/-- The empty environment: every variable unset. -/
def emptyEnv : Env := ⟨fun _ => none⟩

/-- A document whose metadata already carries a `cleaned` entry. -/
def c9Doc : Document := ⟨"texte".toList, [("cleaned", .boolVal false)]⟩

/-- The scenario document of the medical-normalization claim. -/
def c3Doc : Document :=
  ⟨"DT1 et DT2 sont suivis par HbA1c et IMC. Visitez http://example.com.".toList, []⟩

/-- Case-insensitive anchored match: the text starts with `pat` (stored
lower-case) up to ASCII lower-casing. -/
def lowerStarts (pat s : Text) : Bool :=
  (s.take pat.length).map Char.toLower == pat

/-- Case-insensitive contiguous-substring test. -/
def containsLowerSub (pat : Text) : Text → Bool
  | [] => lowerStarts pat []
  | c :: r => lowerStarts pat (c :: r) || containsLowerSub pat r

/-- Two adjacent space characters occur somewhere. -/
def hasDoubleSpace : Text → Bool
  | c :: d :: rest => (c == ' ' && d == ' ') || hasDoubleSpace (d :: rest)
  | _ => false

/-- The class of texts on which every pass of the cleaning pipeline other
than the whitespace normalization is the identity: a single line (no
newline) with no digits (rules out the page-number patterns and the DT1 /
DT2 / HbA1c expansions at their digit positions), no colon (rules out
URLs), no at-sign (rules out emails), none of the special characters that
`clean_special_characters` rewrites or strips, and no case-insensitive
occurrence of the four medical abbreviations. -/
def TameText (s : Text) : Prop :=
  ('\n' ∉ s) ∧ (∀ c ∈ s, c.isDigit = false) ∧ (':' ∉ s) ∧ ('@' ∉ s) ∧
  (∀ c ∈ s, replaceSpecialChar c = [c] ∧ isStrippedControl c = false) ∧
  (containsLowerSub "dt1".toList s = false) ∧
  (containsLowerSub "dt2".toList s = false) ∧
  (containsLowerSub "hba1c".toList s = false) ∧
  (containsLowerSub "imc".toList s = false)

/-! # Generic facts about the substitution scanner -/

/-- If an invariant `P` rules out any match and is preserved when stepping
over one character, the scanner is the identity. -/
theorem scanSub_eq_self {σ : Type} (step : σ → Char → σ)
    (m : σ → Text → Option (Text × Text × σ)) (P : σ → Text → Prop)
    (hnone : ∀ st s, P st s → m st s = none)
    (hstep : ∀ st c r, P st (c :: r) → P (step st c) r) :
    ∀ (fuel : Nat) (st : σ) (s : Text), P st s → scanSub step m fuel st s = s := by
  intro fuel
  induction fuel with
  | zero => intro st s _; rfl
  | succ n ih =>
    intro st s hP
    cases s with
    | nil => rfl
    | cons c r =>
      simp only [scanSub, hnone st _ hP]
      rw [ih _ _ (hstep st c r hP)]

/-- If every match consumes at least as much input as it emits, the scanner
never lengthens the text. -/
theorem scanSub_length_le {σ : Type} (step : σ → Char → σ)
    (m : σ → Text → Option (Text × Text × σ))
    (hm : ∀ st s out rest st', m st s = some (out, rest, st') →
      out.length + rest.length ≤ s.length) :
    ∀ (fuel : Nat) (st : σ) (s : Text),
      (scanSub step m fuel st s).length ≤ s.length := by
  intro fuel
  induction fuel with
  | zero => intro st s; exact Nat.le_refl _
  | succ n ih =>
    intro st s
    cases s with
    | nil => exact Nat.le_refl _
    | cons c r =>
      cases hm' : m st (c :: r) with
      | none =>
        simpa [scanSub, hm'] using ih (step st c) r
      | some x =>
        obtain ⟨out, rest, st'⟩ := x
        have h1 := hm st (c :: r) out rest st' hm'
        have h2 := ih st' rest
        simp only [scanSub, hm', List.length_append, List.length_cons] at *
        omega

/-- A list contains its middle component contiguously. -/
theorem containsSub_of_append (a b c : Text) : containsSub b (a ++ b ++ c) = true := by
  unfold containsSub
  rw [List.any_eq_true]
  refine ⟨a.length, List.mem_range.mpr ?_, ?_⟩
  · simp only [List.length_append]
    omega
  · rw [List.append_assoc, List.drop_left, List.isPrefixOf_iff_prefix]
    exact List.prefix_append b c

theorem pyIntParse_512 : pyIntParse "512" = .ok 512 := by rfl

/-! # C5: index build-vs-load decision -/

/-- C5: `build_or_load_index` builds exactly when `persist_dir` does not
exist — loading the documents, cleaning them when `clean_text` is set, and
persisting to `persist_dir` — and loads the persisted index otherwise; in
the load case the outcome is independent of everything except the
existence bit of `persist_dir` (in particular the source documents are
never consulted).  The `EmbeddingManager` used during the build is
constructed in `EmbedderRag.__init__` (src/documents.py:44), before this
function runs. -/
theorem C5_build_or_load_decision :
    ∀ (fs : FileSystem) (cfg : EmbedderRagConfig),
      (fs.pathExists cfg.persist_dir = false →
        build_or_load_index fs cfg =
          .builtFrom
            (if cfg.clean_text then
              clean_documents cfg.remove_urls cfg.normalize_medical 3
                (fs.load cfg.input_path)
             else fs.load cfg.input_path)
            cfg.persist_dir) ∧
      (fs.pathExists cfg.persist_dir = true →
        build_or_load_index fs cfg = .loadedFrom cfg.persist_dir) ∧
      (∀ fs₂ : FileSystem, fs.pathExists cfg.persist_dir = true →
        fs₂.pathExists cfg.persist_dir = true →
        build_or_load_index fs₂ cfg = build_or_load_index fs cfg) := by
  intro fs cfg
  refine ⟨fun h => ?_, fun h => ?_, fun fs₂ h h₂ => ?_⟩
  · simp [build_or_load_index, h]
  · simp [build_or_load_index, h]
  · simp [build_or_load_index, h, h₂]

theorem C5_build_or_load_decision_witness :
    build_or_load_index
        ⟨fun _ => true, fun _ => true, fun _ => []⟩
        ⟨"./documents", "./storage", true, true, false⟩ =
      .loadedFrom "./storage" :=
  (C5_build_or_load_decision ⟨fun _ => true, fun _ => true, fun _ => []⟩
    ⟨"./documents", "./storage", true, true, false⟩).2.1 rfl

/-! # C4: recognized embedding providers -/

/-- C4 counterexample: the claim says the recognized set is
`{remote, local}` and that a value inside it does not raise; but with
`EMBEDDING_PROVIDER=remote` (and every other key set, so nothing else can
fail) the constructor raises the invalid-provider error — the code's
recognized set is `{azure, local}`. -/
theorem C4_counterexample :
    embeddingManagerInit (envWithProvider (some "remote")) =
      .error (providerErrorMsg "remote") := by
  decide

/-- C4 (amended): the recognized provider set is `{azure, local}` (the
`azure` backend being the spec's "remote" variant): any other value —
after lower-casing — makes `EmbeddingManager.__init__` raise the
configuration error, whose message names the offending value, before
anything else runs (the function consults nothing but the environment);
a value inside the set routes to the corresponding backend and, when that
backend's own required options are present, does not raise. -/
theorem C4_provider_validation :
    (∀ (env : Env) (v : String), env.get "EMBEDDING_PROVIDER" = some v →
      strToLower v ∉ SUPPORTED_PROVIDERS →
      embeddingManagerInit env = .error (providerErrorMsg (strToLower v)) ∧
      strContains (strToLower v) (providerErrorMsg (strToLower v)) = true) ∧
    (∀ env : Env, resolvedProvider env ∈ SUPPORTED_PROVIDERS →
      truthy (env.get "EMBEDDING_API_KEY") = true →
      truthy (env.get "EMBEDDING_API_BASE") = true →
      truthy (env.get "EMBEDDING_MODEL_NAME") = true →
      env.get "EMBEDDING_MAX_LENGTH" = none →
      ∃ mgr, embeddingManagerInit env = .ok mgr ∧
        mgr.provider = resolvedProvider env) := by
  constructor
  · intro env v hv hnot
    have hr : resolvedProvider env = strToLower v := by
      simp [resolvedProvider, hv]
    constructor
    · simp [embeddingManagerInit, hr, hnot]
    · unfold providerErrorMsg strContains
      simp only [String.toList, String.data_append]
      exact containsSub_of_append _ _ _
  · intro env hmem h1 h2 h3 h4
    have hcases : resolvedProvider env = "azure" ∨ resolvedProvider env = "local" := by
      simpa [SUPPORTED_PROVIDERS] using hmem
    rcases hcases with h | h
    · refine ⟨⟨resolvedProvider env,
        .openAI ((env.get "EMBEDDING_MODEL_NAME").getD "")
          ((env.get "EMBEDDING_API_BASE").getD "")
          ((env.get "EMBEDDING_API_KEY").getD "")⟩, ?_, rfl⟩
      simp [embeddingManagerInit, h, configureAzureEmbeddings, h1, h2, h3,
        SUPPORTED_PROVIDERS, Except.map]
    · refine ⟨⟨resolvedProvider env,
        .huggingFace ((env.get "EMBEDDING_MODEL_NAME").getD "BAAI/bge-large-en-v1.5")
          ((env.get "EMBEDDING_DEVICE").getD "cpu") 512⟩, ?_, rfl⟩
      simp [embeddingManagerInit, h, configureLocalEmbeddings, h4,
        SUPPORTED_PROVIDERS, pyIntParse_512, Except.map]

theorem C4_provider_validation_witness :
    (embeddingManagerInit (envWithProvider (some "unknown_value")) =
        .error (providerErrorMsg (strToLower "unknown_value")) ∧
      strContains (strToLower "unknown_value")
        (providerErrorMsg (strToLower "unknown_value")) = true) ∧
    (∃ mgr, embeddingManagerInit (envWithProvider (some "local")) = .ok mgr ∧
      mgr.provider = resolvedProvider (envWithProvider (some "local"))) :=
  ⟨C4_provider_validation.1 (envWithProvider (some "unknown_value"))
      "unknown_value" rfl (by decide),
    C4_provider_validation.2 (envWithProvider (some "local")) (by decide)
      (by decide) (by decide) (by decide) rfl⟩

/-! # C10: provider default and lower-casing -/

/-- C10: when `EMBEDDING_PROVIDER` is unset, `EmbeddingManager.__init__`
does not raise the provider-validation error: the provider silently
defaults to `"azure"` (the remote backend) and the azure configuration is
run; and the raw value is lower-cased before validation, so mixed-case
values such as `"LOCAL"` are accepted as their lower-case form. -/
theorem C10_provider_default_and_lowercase :
    (∀ env : Env, env.get "EMBEDDING_PROVIDER" = none →
      resolvedProvider env = "azure" ∧
      embeddingManagerInit env =
        (configureAzureEmbeddings env).map (fun m => ⟨"azure", m⟩)) ∧
    (∀ env : Env, env.get "EMBEDDING_PROVIDER" = some "LOCAL" →
      resolvedProvider env = "local" ∧
      embeddingManagerInit env =
        (configureLocalEmbeddings env).map (fun m => ⟨"local", m⟩)) ∧
    (∀ (env : Env) (v : String), env.get "EMBEDDING_PROVIDER" = some v →
      resolvedProvider env = strToLower v) := by
  refine ⟨fun env h => ?_, fun env h => ?_,
    fun env v h => by simp [resolvedProvider, h]⟩
  · have hr : resolvedProvider env = "azure" := by
      rw [resolvedProvider, h]; decide
    exact ⟨hr, by simp [embeddingManagerInit, hr, SUPPORTED_PROVIDERS]⟩
  · have hr : resolvedProvider env = "local" := by
      rw [resolvedProvider, h]; decide
    exact ⟨hr, by simp [embeddingManagerInit, hr, SUPPORTED_PROVIDERS]⟩

theorem C10_provider_default_and_lowercase_witness :
    (resolvedProvider emptyEnv = "azure" ∧
      embeddingManagerInit emptyEnv =
        (configureAzureEmbeddings emptyEnv).map (fun m => ⟨"azure", m⟩)) ∧
    (resolvedProvider (envWithProvider (some "LOCAL")) = "local" ∧
      embeddingManagerInit (envWithProvider (some "LOCAL")) =
        (configureLocalEmbeddings (envWithProvider (some "LOCAL"))).map
          (fun m => ⟨"local", m⟩)) :=
  ⟨C10_provider_default_and_lowercase.1 emptyEnv rfl,
    C10_provider_default_and_lowercase.2.1 (envWithProvider (some "LOCAL")) rfl⟩

/-! # C8: missing required options are fatal and named -/

/-- C8: for the remote (azure) embedding provider, each of
`EMBEDDING_API_KEY`, `EMBEDDING_API_BASE`, `EMBEDDING_MODEL_NAME` that is
missing (or empty) makes `EmbeddingManager.__init__` raise an error whose
message names the missing key (the first missing one in source order);
likewise `LlmManager.__init__` for `LLM_API_KEY`, `LLM_API_BASE`,
`LLM_MODEL_NAME`.  Both functions are pure functions of the environment:
the error is produced before any embedding or LLM call could happen. -/
theorem C8_missing_required_keys :
    (∀ env : Env, resolvedProvider env = "azure" →
      truthy (env.get "EMBEDDING_API_KEY") = false →
      embeddingManagerInit env = .error "EMBEDDING_API_KEY not found in .env" ∧
      strContains "EMBEDDING_API_KEY" "EMBEDDING_API_KEY not found in .env" = true) ∧
    (∀ env : Env, resolvedProvider env = "azure" →
      truthy (env.get "EMBEDDING_API_KEY") = true →
      truthy (env.get "EMBEDDING_API_BASE") = false →
      embeddingManagerInit env = .error "EMBEDDING_API_BASE not found in .env" ∧
      strContains "EMBEDDING_API_BASE" "EMBEDDING_API_BASE not found in .env" = true) ∧
    (∀ env : Env, resolvedProvider env = "azure" →
      truthy (env.get "EMBEDDING_API_KEY") = true →
      truthy (env.get "EMBEDDING_API_BASE") = true →
      truthy (env.get "EMBEDDING_MODEL_NAME") = false →
      embeddingManagerInit env = .error "EMBEDDING_MODEL_NAME not found in .env" ∧
      strContains "EMBEDDING_MODEL_NAME" "EMBEDDING_MODEL_NAME not found in .env" = true) ∧
    (∀ env : Env, truthy (env.get "LLM_API_KEY") = false →
      llmManagerInit env = .error "LLM_API_KEY not found in .env" ∧
      strContains "LLM_API_KEY" "LLM_API_KEY not found in .env" = true) ∧
    (∀ env : Env, truthy (env.get "LLM_API_KEY") = true →
      truthy (env.get "LLM_API_BASE") = false →
      llmManagerInit env = .error "LLM_API_BASE not found in .env" ∧
      strContains "LLM_API_BASE" "LLM_API_BASE not found in .env" = true) ∧
    (∀ env : Env, truthy (env.get "LLM_API_KEY") = true →
      truthy (env.get "LLM_API_BASE") = true →
      truthy (env.get "LLM_MODEL_NAME") = false →
      llmManagerInit env = .error "LLM_MODEL_NAME not found in .env" ∧
      strContains "LLM_MODEL_NAME" "LLM_MODEL_NAME not found in .env" = true) := by
  refine ⟨fun env hp h1 => ⟨?_, by decide⟩,
    fun env hp h1 h2 => ⟨?_, by decide⟩,
    fun env hp h1 h2 h3 => ⟨?_, by decide⟩,
    fun env h1 => ⟨?_, by decide⟩,
    fun env h1 h2 => ⟨?_, by decide⟩,
    fun env h1 h2 h3 => ⟨?_, by decide⟩⟩
  · simp [embeddingManagerInit, hp, SUPPORTED_PROVIDERS,
      configureAzureEmbeddings, h1, Except.map]
  · simp [embeddingManagerInit, hp, SUPPORTED_PROVIDERS,
      configureAzureEmbeddings, h1, h2, Except.map]
  · simp [embeddingManagerInit, hp, SUPPORTED_PROVIDERS,
      configureAzureEmbeddings, h1, h2, h3, Except.map]
  · simp [llmManagerInit, h1]
  · simp [llmManagerInit, h1, h2]
  · simp [llmManagerInit, h1, h2, h3]

theorem C8_missing_required_keys_witness :
    (embeddingManagerInit emptyEnv =
        .error "EMBEDDING_API_KEY not found in .env" ∧
      strContains "EMBEDDING_API_KEY" "EMBEDDING_API_KEY not found in .env" = true) ∧
    (llmManagerInit emptyEnv = .error "LLM_API_KEY not found in .env" ∧
      strContains "LLM_API_KEY" "LLM_API_KEY not found in .env" = true) :=
  ⟨C8_missing_required_keys.1 emptyEnv (by decide) rfl,
    C8_missing_required_keys.2.2.2.1 emptyEnv rfl⟩

/-! # C7: similarity search (spec-modelled) -/

/-- C7 (spec-modelled): `search` on an index of `N` entries with
`top_k = k` returns exactly `min k N` results, sorted by descending
similarity score, with pairwise-distinct entry ids; searching an index
built from zero documents returns the empty result (not an error). -/
theorem buildIndexFrom_length (i : Nat) (chunks : List (Text × List Int)) :
    (buildIndexFrom i chunks).length = chunks.length := by
  induction chunks generalizing i with
  | nil => rfl
  | cons c rest ih =>
    obtain ⟨ct, cv⟩ := c
    simp [buildIndexFrom, ih]

theorem buildIndexFrom_ids (i : Nat) (chunks : List (Text × List Int)) :
    (buildIndexFrom i chunks).map (fun e => e.entryId) =
      List.range' i chunks.length := by
  induction chunks generalizing i with
  | nil => rfl
  | cons c rest ih =>
    obtain ⟨ct, cv⟩ := c
    simp [buildIndexFrom, ih, List.range'_succ]

theorem C7_search_topk :
    ∀ (chunks : List (Text × List Int)) (q : List Int) (k : Nat),
      (searchIndex (buildIndex chunks) q k).length = min k chunks.length ∧
      List.Pairwise (fun a b => b.2 ≤ a.2) (searchIndex (buildIndex chunks) q k) ∧
      ((searchIndex (buildIndex chunks) q k).map (fun p => p.1.entryId)).Nodup ∧
      searchIndex (buildIndex []) q k = [] := by
  intro chunks q k
  refine ⟨?_, ?_, ?_, by simp [searchIndex, buildIndex, buildIndexFrom, List.mergeSort_nil]⟩
  · simp [searchIndex, List.length_take, List.length_mergeSort, buildIndex,
      buildIndexFrom_length]
  · have hs := @List.sorted_mergeSort (IndexEntry × Int)
      (fun a b => decide (b.2 ≤ a.2))
      (fun a b c h₁ h₂ => by
        simp only [decide_eq_true_eq] at *
        exact le_trans h₂ h₁)
      (fun a b => by
        simp only [Bool.or_eq_true, decide_eq_true_eq]
        exact Int.le_total b.2 a.2)
      ((buildIndex chunks).map (fun e => (e, dotScore q e.vec)))
    have hs' : List.Pairwise (fun a b : IndexEntry × Int => b.2 ≤ a.2)
        (((buildIndex chunks).map (fun e => (e, dotScore q e.vec))).mergeSort
          (fun a b => decide (b.2 ≤ a.2))) :=
      hs.imp (fun h => by simpa using h)
    exact List.Pairwise.sublist (List.take_sublist k _) hs'
  · have hperm :
        ((((buildIndex chunks).map (fun e => (e, dotScore q e.vec))).mergeSort
            (fun a b => decide (b.2 ≤ a.2))).map (fun p => p.1.entryId)).Perm
          ((((buildIndex chunks).map (fun e => (e, dotScore q e.vec)))).map
            (fun p => p.1.entryId)) :=
      (List.mergeSort_perm _ _).map _
    have hids :
        ((((buildIndex chunks).map (fun e => (e, dotScore q e.vec)))).map
          (fun p => p.1.entryId)) = List.range' 0 chunks.length := by
      rw [List.map_map]
      exact buildIndexFrom_ids 0 chunks
    have hnd : ((((buildIndex chunks).map (fun e => (e, dotScore q e.vec))).mergeSort
        (fun a b => decide (b.2 ≤ a.2))).map (fun p => p.1.entryId)).Nodup :=
      hperm.nodup_iff.mpr (hids ▸ List.nodup_range' 0 chunks.length)
    have hmt : (searchIndex (buildIndex chunks) q k).map (fun p => p.1.entryId) =
        ((((buildIndex chunks).map (fun e => (e, dotScore q e.vec))).mergeSort
          (fun a b => decide (b.2 ≤ a.2))).map (fun p => p.1.entryId)).take k := by
      simp [searchIndex, List.map_take]
    rw [hmt]
    exact List.Nodup.sublist (List.take_sublist k _) hnd

/-! # C6: chunk counts and shapes (spec-modelled) -/

theorem chunkText_of_le (S O fuel : Nat) (s : Text) (h : s.length ≤ S) :
    chunkText S O fuel s = [s] := by
  cases fuel with
  | zero => rfl
  | succ n => simp [chunkText, h]

theorem chunkText_of_lt (S O fuel : Nat) (s : Text) (h : S < s.length) :
    chunkText S O (fuel + 1) s = s.take S :: chunkText S O fuel (s.drop (S - O)) := by
  simp [chunkText, Nat.not_le.mpr h]

/-- The chunk count of the fuelled splitter, for documents longer than the
overlap. -/
theorem chunkText_length (S O : Nat) (hOS : O < S) :
    ∀ (fuel : Nat) (s : Text), s.length ≤ fuel + 1 → O < s.length →
      (chunkText S O fuel s).length =
        (s.length - O + (S - O) - 1) / (S - O) := by
  intro fuel
  induction fuel with
  | zero =>
    intro s hf hO
    have h1 : s.length ≤ S := by omega
    rw [chunkText_of_le S O 0 s h1]
    have : (s.length - O + (S - O) - 1) / (S - O) = 1 := by
      apply Nat.div_eq_of_lt_le <;> omega
    simp [this]
  | succ n ih =>
    intro s hf hO
    by_cases h : s.length ≤ S
    · rw [chunkText_of_le S O (n + 1) s h]
      have : (s.length - O + (S - O) - 1) / (S - O) = 1 := by
        apply Nat.div_eq_of_lt_le <;> omega
      simp [this]
    · push_neg at h
      rw [chunkText_of_lt S O n s h]
      have hlen : (s.drop (S - O)).length = s.length - (S - O) := by
        simp [List.length_drop]
      have hrec := ih (s.drop (S - O)) (by omega) (by omega)
      rw [List.length_cons, hrec, hlen]
      have heq : s.length - O + (S - O) - 1 =
          (s.length - (S - O) - O + (S - O) - 1) + (S - O) := by omega
      rw [heq, Nat.add_div_right _ (by omega : 0 < S - O)]

/-- The 1700-character scenario: the document splits into chunks of 800,
800 and 300 characters. -/
theorem chunk_1700 :
    chunk_document 800 100 (List.replicate 1700 'a') =
      [List.replicate 800 'a', List.replicate 800 'a', List.replicate 300 'a'] := by
  unfold chunk_document
  rw [List.length_replicate]
  rw [show (1700 : Nat) = 1699 + 1 from rfl,
    chunkText_of_lt 800 100 1699 _ (by rw [List.length_replicate]; omega),
    List.take_replicate, List.drop_replicate,
    show (800 ⊓ 1700 : Nat) = 800 from rfl,
    show (1700 - (800 - 100) : Nat) = 1000 from rfl]
  rw [show (1699 : Nat) = 1698 + 1 from rfl,
    chunkText_of_lt 800 100 1698 _ (by rw [List.length_replicate]; omega),
    List.take_replicate, List.drop_replicate,
    show (800 ⊓ 1000 : Nat) = 800 from rfl,
    show (1000 - (800 - 100) : Nat) = 300 from rfl]
  rw [chunkText_of_le 800 100 1698 _ (by rw [List.length_replicate]; omega)]

/-- C6 counterexample: the claimed chunk lengths `[800, 800, 100]` for a
1700-character document with `chunk_size=800, chunk_overlap=100` are
impossible — the model yields `[800, 800, 300]` (three chunks of total
extent 1700 with two overlaps of 100 cannot have a 100-character tail). -/
theorem C6_counterexample :
    ¬ ((chunk_document 800 100 (List.replicate 1700 'a')).map List.length =
        [800, 800, 100]) := by
  intro h
  rw [chunk_1700] at h
  simp only [List.map_cons, List.map_nil, List.length_replicate,
    List.cons.injEq, and_true] at h
  omega

/-- C6 (amended, spec-modelled): with `O < S` and a document longer than
the overlap, chunking yields `ceil((L - O) / (S - O))` chunks; the
1700-character scenario yields 3 chunks of lengths 800, 800 and 300 with
consecutive pairs overlapping by exactly 100 characters; the 650-character
scenario yields one chunk equal to the whole text. -/
theorem C6_chunk_counts :
    (∀ (S O : Nat) (s : Text), O < S → O < s.length →
      (chunk_document S O s).length = (s.length - O + (S - O) - 1) / (S - O)) ∧
    ((chunk_document 800 100 (List.replicate 1700 'a')).map List.length =
        [800, 800, 300] ∧
      (List.replicate 800 'a').drop 700 = (List.replicate 800 'a').take 100 ∧
      (List.replicate 800 'a').drop 700 = (List.replicate 300 'a').take 100) ∧
    chunk_document 800 100 (List.replicate 650 'a') = [List.replicate 650 'a'] := by
  refine ⟨?_, ⟨?_, ?_, ?_⟩, ?_⟩
  · intro S O s hOS hO
    unfold chunk_document
    exact chunkText_length S O hOS s.length s (by omega) hO
  · rw [chunk_1700]
    simp only [List.map_cons, List.map_nil, List.length_replicate]
  · rw [List.drop_replicate, List.take_replicate,
      show (800 - 700 : Nat) = 100 from rfl, show (100 ⊓ 800 : Nat) = 100 from rfl]
  · rw [List.drop_replicate, List.take_replicate,
      show (800 - 700 : Nat) = 100 from rfl, show (100 ⊓ 300 : Nat) = 100 from rfl]
  · unfold chunk_document
    exact chunkText_of_le 800 100 _ _ (by rw [List.length_replicate]; omega)

theorem C6_chunk_counts_witness :
    (chunk_document 800 100 (List.replicate 1700 'a')).length =
      ((List.replicate 1700 'a' : Text).length - 100 + (800 - 100) - 1) / (800 - 100) :=
  C6_chunk_counts.1 800 100 (List.replicate 1700 'a') (by omega)
    (by rw [List.length_replicate]; omega)

/-! # C9: metadata of clean_document -/

theorem lookup_map_set (m : List (String × MetaVal)) (k : String) (v : MetaVal)
    (h : (m.lookup k).isSome) :
    (m.map (fun kv => if kv.1 = k then (k, v) else kv)).lookup k = some v := by
  induction m with
  | nil => simp [List.lookup] at h
  | cons kv rest ih =>
    obtain ⟨k1, v1⟩ := kv
    by_cases hk : k1 = k
    · subst hk
      have hhead : (if (k1, v1).1 = k1 then (k1, v) else (k1, v1)) = (k1, v) := by simp
      rw [List.map_cons, hhead]
      simp [List.lookup]
    · have hhead : (if (k1, v1).1 = k then (k, v) else (k1, v1)) = (k1, v1) := by
        simp [hk]
      have hbeq : (k == k1) = false := by
        simp [Ne.symm hk]
      rw [List.map_cons, hhead]
      simp only [List.lookup, hbeq] at h ⊢
      exact ih h

theorem lookup_map_set_ne (m : List (String × MetaVal)) (k k' : String) (v : MetaVal)
    (h : k' ≠ k) :
    (m.map (fun kv => if kv.1 = k then (k, v) else kv)).lookup k' = m.lookup k' := by
  induction m with
  | nil => rfl
  | cons kv rest ih =>
    obtain ⟨k1, v1⟩ := kv
    by_cases hk : k1 = k
    · subst hk
      have hhead : (if (k1, v1).1 = k1 then (k1, v) else (k1, v1)) = (k1, v) := by simp
      have hbeq : (k' == k1) = false := by simp [h]
      rw [List.map_cons, hhead]
      simp only [List.lookup, hbeq]
      exact ih
    · have hhead : (if (k1, v1).1 = k then (k, v) else (k1, v1)) = (k1, v1) := by
        simp [hk]
      rw [List.map_cons, hhead]
      simp only [List.lookup]
      cases k' == k1 with
      | true => rfl
      | false => exact ih

theorem lookup_append_single (m : List (String × MetaVal)) (k : String) (v : MetaVal)
    (h : m.lookup k = none) : (m ++ [(k, v)]).lookup k = some v := by
  induction m with
  | nil => simp [List.lookup]
  | cons kv rest ih =>
    obtain ⟨k1, v1⟩ := kv
    cases hbeq : (k == k1) with
    | true => simp [List.lookup, hbeq] at h
    | false =>
      simp only [List.lookup, hbeq] at h
      simp only [List.cons_append, List.lookup, hbeq]
      exact ih h

theorem lookup_append_single_ne (m : List (String × MetaVal)) (k k' : String)
    (v : MetaVal) (h : k' ≠ k) : (m ++ [(k, v)]).lookup k' = m.lookup k' := by
  induction m with
  | nil =>
    have hbeq : (k' == k) = false := by simp [h]
    simp [List.lookup, hbeq]
  | cons kv rest ih =>
    obtain ⟨k1, v1⟩ := kv
    simp only [List.cons_append, List.lookup]
    cases k' == k1 with
    | true => rfl
    | false => exact ih

theorem lookup_dictSet_self (m : List (String × MetaVal)) (k : String) (v : MetaVal) :
    (dictSet m k v).lookup k = some v := by
  unfold dictSet
  by_cases h : (m.lookup k).isSome
  · rw [if_pos h]
    exact lookup_map_set m k v h
  · rw [if_neg h]
    exact lookup_append_single m k v (Option.not_isSome_iff_eq_none.mp h)

theorem lookup_dictSet_ne (m : List (String × MetaVal)) (k k' : String) (v : MetaVal)
    (h : k' ≠ k) : (dictSet m k v).lookup k' = m.lookup k' := by
  unfold dictSet
  by_cases hs : (m.lookup k).isSome
  · rw [if_pos hs]
    exact lookup_map_set_ne m k k' v h
  · rw [if_neg hs]
    exact lookup_append_single_ne m k k' v h

/-- C9 counterexample: for a document whose metadata already contains the
pair `cleaned = false`, that pair is *not* carried over unchanged — the
merge `{**doc.metadata, 'cleaned': True, 'headlines': []}` overwrites it —
so "metadata containing every key-value pair of D.metadata unchanged, plus
the entry cleaned=true" fails for this document. -/
theorem C9_counterexample :
    ¬ (∀ (k : String) (v : MetaVal), c9Doc.metadata.lookup k = some v →
        (clean_document true false 3 c9Doc).metadata.lookup k = some v) := by
  intro h
  have h1 := h "cleaned" (.boolVal false) (by rfl)
  have h2 : (clean_document true false 3 c9Doc).metadata.lookup "cleaned" =
      some (.boolVal true) := by
    show (dictSet (dictSet c9Doc.metadata "cleaned" (.boolVal true)) "headlines"
      (.listStrVal [])).lookup "cleaned" = some (.boolVal true)
    rw [lookup_dictSet_ne _ _ _ _ (by decide), lookup_dictSet_self]
  have := h1.symm.trans h2
  simp at this

/-- C9 (amended): `clean_document` returns a new document (the embedding is
functional, so the input value is untouched) whose metadata preserves every
key-value pair of the input for keys other than `cleaned` and `headlines`
unchanged, and carries `cleaned = true` (and `headlines = []`); a
pre-existing `cleaned` or `headlines` entry is overwritten. -/
theorem C9_metadata_preserved :
    ∀ (ru nm : Bool) (mr : Nat) (d : Document) (k : String) (v : MetaVal),
      (k ≠ "cleaned" → k ≠ "headlines" →
        d.metadata.lookup k = some v →
        (clean_document ru nm mr d).metadata.lookup k = some v) ∧
      (clean_document ru nm mr d).metadata.lookup "cleaned" =
        some (.boolVal true) ∧
      (clean_document ru nm mr d).metadata.lookup "headlines" =
        some (.listStrVal []) := by
  intro ru nm mr d k v
  refine ⟨fun h1 h2 h3 => ?_, ?_, ?_⟩
  · show (dictSet (dictSet d.metadata "cleaned" (.boolVal true)) "headlines"
      (.listStrVal [])).lookup k = some v
    rw [lookup_dictSet_ne _ _ _ _ h2, lookup_dictSet_ne _ _ _ _ h1, h3]
  · show (dictSet (dictSet d.metadata "cleaned" (.boolVal true)) "headlines"
      (.listStrVal [])).lookup "cleaned" = some (.boolVal true)
    rw [lookup_dictSet_ne _ _ _ _ (by decide), lookup_dictSet_self]
  · show (dictSet (dictSet d.metadata "cleaned" (.boolVal true)) "headlines"
      (.listStrVal [])).lookup "headlines" = some (.listStrVal [])
    rw [lookup_dictSet_self]

theorem C9_metadata_preserved_witness :
    (clean_document true false 3
        ⟨"texte".toList, [("file_name", .strVal "doc.pdf")]⟩).metadata.lookup
      "file_name" = some (.strVal "doc.pdf") :=
  (C9_metadata_preserved true false 3
      ⟨"texte".toList, [("file_name", .strVal "doc.pdf")]⟩ "file_name"
      (.strVal "doc.pdf")).1 (by decide) (by decide) (by rfl)

/-! # C3: the medical-normalization scenario -/

/-- C3: cleaning the scenario document with `remove_urls=true` and
`normalize_medical=true` yields text containing the four expansions and no
`http` substring. -/
theorem C3_medical_scenario :
    containsSub "diabète de type 1".toList
        (clean_document true true 3 c3Doc).text = true ∧
    containsSub "diabète de type 2".toList
        (clean_document true true 3 c3Doc).text = true ∧
    containsSub "hémoglobine glyquée".toList
        (clean_document true true 3 c3Doc).text = true ∧
    containsSub "indice de masse corporelle".toList
        (clean_document true true 3 c3Doc).text = true ∧
    containsSub "http".toList (clean_document true true 3 c3Doc).text = false := by
  set_option maxRecDepth 8000 in decide

/-! # C2: cleaning never lengthens the text (without medical expansion) -/

/-- C2 counterexample: the Unicode ellipsis is replaced by three ASCII
dots, so cleaning the one-character document `"…"` (with
`normalize_medical=false`) yields `"..."`, which is longer. -/
theorem C2_counterexample :
    ¬ ((clean_document true false 3 ⟨['…'], []⟩).text.length ≤
        ([('…' : Char)] : Text).length) := by
  decide

theorem replaceSpecialChar_length_of_ne {c : Char} (h : c ≠ '…') :
    (replaceSpecialChar c).length = 1 := by
  unfold replaceSpecialChar
  split_ifs <;> simp_all

theorem clean_special_length_le :
    ∀ {s : Text}, '…' ∉ s → (clean_special_characters s).length ≤ s.length := by
  have flat : ∀ s : Text, '…' ∉ s →
      ((s.map replaceSpecialChar).flatten).length ≤ s.length := by
    intro s
    induction s with
    | nil => intro _; simp
    | cons c r ih =>
      intro h
      simp only [List.map_cons, List.flatten_cons, List.length_append, List.length_cons]
      have hc : c ≠ '…' := fun hh => h (hh ▸ List.mem_cons_self c r)
      have hr := ih (fun hm => h (List.mem_cons_of_mem c hm))
      rw [replaceSpecialChar_length_of_ne hc]
      omega
  intro s h
  exact le_trans (List.length_filter_le _ _) (flat s h)

theorem hyphMatch_le (u : Unit) (s out rest : Text) (u' : Unit)
    (h : hyphMatch u s = some (out, rest, u')) :
    out.length + rest.length ≤ s.length := by
  simp only [hyphMatch] at h
  split at h
  · exact absurd h (by simp)
  · split at h
    · next t heq =>
      split at h
      · split at h
        · exact absurd h (by simp)
        · simp only [Option.some.injEq, Prod.mk.injEq] at h
          obtain ⟨hout, hrest, -⟩ := h
          subst hout hrest
          have ha : (s.takeWhile pyWordChar).length ≤ s.length :=
            (List.takeWhile_sublist _).length_le
          have hsd : (s.drop (s.takeWhile pyWordChar).length).length =
              s.length - (s.takeWhile pyWordChar).length := List.length_drop _ _
          have hteq : (s.drop (s.takeWhile pyWordChar).length).length =
              t.length + 1 := by rw [heq]; rfl
          have hws : (t.takeWhile pyWhitespaceChar).length ≤ t.length :=
            (List.takeWhile_sublist _).length_le
          have ht2 : (t.drop (t.takeWhile pyWhitespaceChar).length).length =
              t.length - (t.takeWhile pyWhitespaceChar).length :=
            List.length_drop _ _
          have hw2 : ((t.drop (t.takeWhile pyWhitespaceChar).length).takeWhile
              pyWordChar).length ≤
              (t.drop (t.takeWhile pyWhitespaceChar).length).length :=
            (List.takeWhile_sublist _).length_le
          simp only [List.length_append, List.length_drop]
          omega
      · exact absurd h (by simp)
    · exact absurd h (by simp)

theorem digitLineMatch_le (b : Bool) (s out rest : Text) (b' : Bool)
    (h : digitLineMatch b s = some (out, rest, b')) :
    out.length + rest.length ≤ s.length := by
  simp only [digitLineMatch] at h
  split at h
  · exact absurd h (by simp)
  · split at h
    · exact absurd h (by simp)
    · split at h
      · exact absurd h (by simp)
      · next p hp =>
        simp only [Option.some.injEq, Prod.mk.injEq] at h
        obtain ⟨hout, hrest, -⟩ := h
        subst hout hrest
        have h1 : (s.takeWhile pyWhitespaceChar).length ≤ s.length :=
          (List.takeWhile_sublist _).length_le
        have h2 := List.length_drop (s.takeWhile pyWhitespaceChar).length s
        have h3 : ((s.drop (s.takeWhile pyWhitespaceChar).length).takeWhile
            Char.isDigit).length ≤
            (s.drop (s.takeWhile pyWhitespaceChar).length).length :=
          (List.takeWhile_sublist _).length_le
        have h4 : (((s.drop (s.takeWhile pyWhitespaceChar).length).drop
            ((s.drop (s.takeWhile pyWhitespaceChar).length).takeWhile
              Char.isDigit).length).takeWhile pyWhitespaceChar).length ≤
            ((s.drop (s.takeWhile pyWhitespaceChar).length).drop
              ((s.drop (s.takeWhile pyWhitespaceChar).length).takeWhile
                Char.isDigit).length).length :=
          (List.takeWhile_sublist _).length_le
        simp only [List.length_append, List.length_drop, List.length_take,
          List.length_nil] at *
        omega


theorem pageNMatch_le (b : Bool) (s out rest : Text) (b' : Bool)
    (h : pageNMatch b s = some (out, rest, b')) :
    out.length + rest.length ≤ s.length := by
  simp only [pageNMatch] at h
  split at h
  · exact absurd h (by simp)
  · split at h
    · next c t =>
      split at h
      · split at h
        · exact absurd h (by simp)
        · split at h
          · exact absurd h (by simp)
          · split at h
            · simp only [Option.some.injEq, Prod.mk.injEq] at h
              obtain ⟨hout, hrest, -⟩ := h
              subst hout hrest
              simp only [List.length_drop, List.length_cons, List.length_nil]
              omega
            · exact absurd h (by simp)
      · exact absurd h (by simp)
    · exact absurd h (by simp)

theorem pDotMatch_le (b : Bool) (s out rest : Text) (b' : Bool)
    (h : pDotMatch b s = some (out, rest, b')) :
    out.length + rest.length ≤ s.length := by
  simp only [pDotMatch] at h
  split at h
  · exact absurd h (by simp)
  · split at h
    · next t =>
      split at h
      · exact absurd h (by simp)
      · split at h
        · simp only [Option.some.injEq, Prod.mk.injEq] at h
          obtain ⟨hout, hrest, -⟩ := h
          subst hout hrest
          simp only [List.length_drop, List.length_cons, List.length_nil]
          omega
        · exact absurd h (by simp)
    · exact absurd h (by simp)

theorem urlMatch_le (u : Unit) (s out rest : Text) (u' : Unit)
    (h : urlMatch u s = some (out, rest, u')) :
    out.length + rest.length ≤ s.length := by
  simp only [urlMatch] at h
  split at h
  · split at h
    · exact absurd h (by simp)
    · simp only [Option.some.injEq, Prod.mk.injEq] at h
      obtain ⟨hout, hrest, -⟩ := h
      subst hout hrest
      simp only [List.length_drop, List.length_nil]
      omega
  · split at h
    · split at h
      · exact absurd h (by simp)
      · simp only [Option.some.injEq, Prod.mk.injEq] at h
        obtain ⟨hout, hrest, -⟩ := h
        subst hout hrest
        simp only [List.length_drop, List.length_nil]
        omega
    · exact absurd h (by simp)

theorem emailMatch_le (b : Bool) (s out rest : Text) (b' : Bool)
    (h : emailMatch b s = some (out, rest, b')) :
    out.length + rest.length ≤ s.length := by
  cases s with
  | nil => simp [emailMatch] at h
  | cons c tail =>
    simp only [emailMatch] at h
    split at h
    · exact absurd h (by simp)
    · split at h
      · exact absurd h (by simp)
      · split at h
        · next rest1 heq =>
          split at h
          · exact absurd h (by simp)
          · split at h
            · next i t hfind =>
              simp only [Option.some.injEq, Prod.mk.injEq] at h
              obtain ⟨hout, hrest, -⟩ := h
              subst hout hrest
              have h1 : ((c :: tail).drop
                  ((c :: tail).takeWhile emailLocalChar).length).length =
                  rest1.length + 1 := by rw [heq]; rfl
              have h2 := List.length_drop
                ((c :: tail).takeWhile emailLocalChar).length (c :: tail)
              simp only [List.length_drop, List.length_nil, List.length_cons] at *
              omega
            · exact absurd h (by simp)
        · exact absurd h (by simp)

theorem nlRunMatch_le (u : Unit) (s out rest : Text) (u' : Unit)
    (h : nlRunMatch u s = some (out, rest, u')) :
    out.length + rest.length ≤ s.length := by
  simp only [nlRunMatch] at h
  split at h
  · next t =>
    have hmem : (out, rest, u') ∈
        (List.range (t.takeWhile pyWhitespaceChar).length).reverse.filterMap (fun b =>
          if (t.takeWhile pyWhitespaceChar)[b]? == some '\n' then
            match (List.range ((t.drop (b + 1)).takeWhile
                pyWhitespaceChar).length).reverse.find?
                (fun d => ((t.drop (b + 1)).takeWhile pyWhitespaceChar)[d]? ==
                  some '\n') with
            | some d =>
              some (['\n', '\n'],
                ((t.drop (b + 1)).drop d).drop
                  (((t.drop (b + 1)).drop d).takeWhile (fun c => c == '\n')).length,
                ())
            | none => none
          else none) :=
      List.mem_of_mem_head? (Option.mem_def.mpr h)
    obtain ⟨b, hb, hfb⟩ := List.mem_filterMap.mp hmem
    have hblt : b < (t.takeWhile pyWhitespaceChar).length :=
      List.mem_range.mp (List.mem_reverse.mp hb)
    have hwst : (t.takeWhile pyWhitespaceChar).length ≤ t.length :=
      (List.takeWhile_sublist _).length_le
    split at hfb
    · split at hfb
      · next d hfd =>
        simp only [Option.some.injEq, Prod.mk.injEq] at hfb
        obtain ⟨hout, hrest, -⟩ := hfb
        subst hout hrest
        simp only [List.length_drop, List.length_cons, List.length_nil]
        omega
      · exact absurd hfb (by simp)
    · exact absurd hfb (by simp)
  · exact absurd h (by simp)

theorem fix_hyphenation_length_le (s : Text) :
    (fix_hyphenation s).length ≤ s.length :=
  scanSub_length_le _ _ (fun st s' out rest st' h => hyphMatch_le st s' out rest st' h)
    s.length () s

theorem remove_page_numbers_length_le (s : Text) :
    (remove_page_numbers s).length ≤ s.length := by
  unfold remove_page_numbers
  refine le_trans (scanSub_length_le _ _
    (fun st s' out rest st' h => pDotMatch_le st s' out rest st' h) _ _ _) ?_
  refine le_trans (scanSub_length_le _ _
    (fun st s' out rest st' h => pageNMatch_le st s' out rest st' h) _ _ _) ?_
  exact scanSub_length_le _ _
    (fun st s' out rest st' h => digitLineMatch_le st s' out rest st' h) _ _ _

theorem remove_urls_and_emails_length_le (s : Text) :
    (remove_urls_and_emails s).length ≤ s.length := by
  unfold remove_urls_and_emails
  refine le_trans (scanSub_length_le _ _
    (fun st s' out rest st' h => emailMatch_le st s' out rest st' h) _ _ _) ?_
  exact scanSub_length_le _ _
    (fun st s' out rest st' h => urlMatch_le st s' out rest st' h) _ _ _

theorem splitOnNl_ne_nil (s : Text) : splitOnNl s ≠ [] := by
  induction s with
  | nil => simp [splitOnNl]
  | cons c r ih =>
    simp only [splitOnNl]
    split
    · simp
    · split
      · simp
      · simp

theorem joinNl_splitOnNl (s : Text) : joinNl (splitOnNl s) = s := by
  induction s with
  | nil => rfl
  | cons c r ih =>
    by_cases hc : c = '\n'
    · subst hc
      simp only [splitOnNl, if_pos rfl]
      cases hr : splitOnNl r with
      | nil => exact absurd hr (splitOnNl_ne_nil r)
      | cons l ls =>
        rw [hr] at ih
        show [] ++ '\n' :: joinNl (l :: ls) = '\n' :: r
        rw [List.nil_append, ih]
    · simp only [splitOnNl, if_neg hc]
      cases hr : splitOnNl r with
      | nil => exact absurd hr (splitOnNl_ne_nil r)
      | cons l ls =>
        rw [hr] at ih
        cases ls with
        | nil =>
          show c :: l = c :: r
          rw [show joinNl [l] = l from rfl] at ih
          rw [ih]
        | cons l2 ls2 =>
          show (c :: l) ++ '\n' :: joinNl (l2 :: ls2) = c :: r
          rw [show joinNl (l :: l2 :: ls2) = l ++ '\n' :: joinNl (l2 :: ls2) from rfl]
            at ih
          rw [List.cons_append, ih]

theorem joinNl_length (ls : List Text) :
    (joinNl ls).length = (ls.map List.length).sum + (ls.length - 1) := by
  induction ls with
  | nil => simp [joinNl]
  | cons l ls ih =>
    cases ls with
    | nil => simp [joinNl]
    | cons l2 ls2 =>
      show (l ++ '\n' :: joinNl (l2 :: ls2)).length = _
      simp only [List.length_append, List.length_cons, List.map_cons, List.sum_cons,
        List.length_cons] at ih ⊢
      omega

theorem remove_headers_footers_length_le (minRep : Nat) (s : Text) :
    (remove_headers_footers minRep s).length ≤ s.length := by
  show (joinNl ((splitOnNl s).filter
    (fun l => !isRepetitiveLine ((splitOnNl s).map pyStrip) minRep l))).length ≤
    s.length
  have hsub : List.Sublist ((splitOnNl s).filter
      (fun l => !isRepetitiveLine ((splitOnNl s).map pyStrip) minRep l))
      (splitOnNl s) := List.filter_sublist _
  have hsum : (((splitOnNl s).filter
        (fun l => !isRepetitiveLine ((splitOnNl s).map pyStrip) minRep l)).map
        List.length).sum ≤ ((splitOnNl s).map List.length).sum :=
    List.Sublist.sum_le_sum (hsub.map _) (fun a _ => Nat.zero_le a)
  have hlen := hsub.length_le
  have h1 := joinNl_length ((splitOnNl s).filter
    (fun l => !isRepetitiveLine ((splitOnNl s).map pyStrip) minRep l))
  have h2 := joinNl_length (splitOnNl s)
  have h3 : (joinNl (splitOnNl s)).length = s.length := by rw [joinNl_splitOnNl]
  omega

theorem collapseSpaces_length_le : ∀ s : Text, (collapseSpaces s).length ≤ s.length
  | [] => Nat.le_refl _
  | [_] => Nat.le_refl _
  | c :: d :: rest => by
    simp only [collapseSpaces]
    split
    · exact le_trans (collapseSpaces_length_le (d :: rest)) (by simp)
    · simpa using collapseSpaces_length_le (d :: rest)

theorem pyStrip_length_le (s : Text) : (pyStrip s).length ≤ s.length := by
  unfold pyStrip
  rw [List.length_reverse]
  calc ((s.dropWhile pyWhitespaceChar).reverse.dropWhile pyWhitespaceChar).length
      ≤ (s.dropWhile pyWhitespaceChar).reverse.length :=
        (List.dropWhile_sublist _).length_le
    _ = (s.dropWhile pyWhitespaceChar).length := List.length_reverse _
    _ ≤ s.length := (List.dropWhile_sublist _).length_le

theorem joinNl_map_pyStrip_le (ls : List Text) :
    (joinNl (ls.map pyStrip)).length ≤ (joinNl ls).length := by
  rw [joinNl_length, joinNl_length]
  have hsum : ((ls.map pyStrip).map List.length).sum ≤ (ls.map List.length).sum := by
    rw [List.map_map]
    exact List.sum_le_sum (fun l _ => pyStrip_length_le l)
  simp only [List.length_map]
  omega

theorem clean_whitespace_length_le (s : Text) :
    (clean_whitespace s).length ≤ s.length := by
  unfold clean_whitespace
  refine le_trans (pyStrip_length_le _) ?_
  refine le_trans (joinNl_map_pyStrip_le _) ?_
  rw [joinNl_splitOnNl]
  refine le_trans (scanSub_length_le _ _
    (fun st s' out rest st' h => nlRunMatch_le st s' out rest st' h) _ _ _) ?_
  exact collapseSpaces_length_le s

set_option maxHeartbeats 1000000 in
/-- The pipeline without medical expansion never lengthens ellipsis-free
text. -/
theorem cleanPipeline_length_le (ru : Bool) (mr : Nat) (t : Text)
    (h : '…' ∉ t) : (cleanPipeline ru false mr t).length ≤ t.length := by
  unfold cleanPipeline
  simp only [Bool.false_eq_true, if_false]
  set t1 := clean_special_characters t with ht1
  set t2 := fix_hyphenation t1 with ht2
  set t3 := remove_page_numbers t2 with ht3
  set t4 := remove_headers_footers mr t3 with ht4
  have h5 : (if ru then remove_urls_and_emails t4 else t4).length ≤ t4.length := by
    cases ru
    · exact Nat.le_refl _
    · exact remove_urls_and_emails_length_le _
  calc (clean_whitespace (if ru then remove_urls_and_emails t4 else t4)).length
      ≤ (if ru then remove_urls_and_emails t4 else t4).length :=
        clean_whitespace_length_le _
    _ ≤ t4.length := h5
    _ ≤ t3.length := by rw [ht4]; exact remove_headers_footers_length_le _ _
    _ ≤ t2.length := by rw [ht3]; exact remove_page_numbers_length_le _
    _ ≤ t1.length := by rw [ht2]; exact fix_hyphenation_length_le _
    _ ≤ t.length := by rw [ht1]; exact clean_special_length_le h

/-- C2 (amended): when `normalize_medical=false` and the text contains no
Unicode ellipsis character (U+2026, the one replacement that grows the
text), cleaning never lengthens the text. -/
theorem C2_no_lengthening :
    ∀ (ru : Bool) (mr : Nat) (d : Document), '…' ∉ d.text →
      (clean_document ru false mr d).text.length ≤ d.text.length := by
  intro ru mr d h
  exact cleanPipeline_length_le ru mr d.text h

theorem C2_no_lengthening_witness :
    (clean_document true false 3
        ⟨"Un  exemple   de texte.".toList, []⟩).text.length ≤
      ("Un  exemple   de texte.".toList : Text).length :=
  C2_no_lengthening true 3 ⟨"Un  exemple   de texte.".toList, []⟩ (by decide)

/-! # C1: idempotence of clean_document -/

/-- C1 counterexample: `fix_hyphenation` resolves hyphen chains one pair
per pass (`re.sub` resumes scanning after each match), so
`"ab-\ncd-\nef"` cleans to `"abcd-\nef"`, and cleaning that again joins
the remaining pair, giving `"abcdef"` — a second application changes the
text. -/
theorem C1_counterexample :
    (clean_document true false 3
        (clean_document true false 3 ⟨"ab-\ncd-\nef".toList, []⟩)).text ≠
      (clean_document true false 3 ⟨"ab-\ncd-\nef".toList, []⟩).text := by
  decide


theorem takeWhile_eq_nil_of_forall (p : Char → Bool) (l : Text)
    (h : ∀ c ∈ l, p c = false) : l.takeWhile p = [] := by
  cases l with
  | nil => rfl
  | cons c r => simp [List.takeWhile_cons, h c (List.mem_cons_self c r)]

theorem hyphMatch_none {s : Text} (h : '\n' ∉ s) : hyphMatch () s = none := by
  simp only [hyphMatch]
  split
  · rfl
  · split
    · next t heq =>
      have hnt : '\n' ∉ t := fun hm => h (List.mem_of_mem_drop (heq ▸
        List.mem_cons_of_mem '-' hm))
      have hws : '\n' ∉ t.takeWhile pyWhitespaceChar :=
        fun hm => hnt ((List.takeWhile_sublist _).subset hm)
      have hc : (t.takeWhile pyWhitespaceChar).contains '\n' = false := by
        simpa using hws
      simp only [hc, Bool.false_eq_true, if_false]
    · rfl

theorem digitLineMatch_none {s : Text} (b : Bool)
    (h : ∀ c ∈ s, c.isDigit = false) : digitLineMatch b s = none := by
  simp only [digitLineMatch]
  split
  · rfl
  · have hds : (s.drop (s.takeWhile pyWhitespaceChar).length).takeWhile
        Char.isDigit = [] :=
      takeWhile_eq_nil_of_forall _ _ (fun c hc => h c (List.mem_of_mem_drop hc))
    rw [hds]
    rfl

theorem pageNMatch_none {s : Text} (b : Bool)
    (h : ∀ c ∈ s, c.isDigit = false) : pageNMatch b s = none := by
  simp only [pageNMatch]
  split
  · rfl
  · split
    · next c t =>
      split
      · have hds : ((t.drop 3).drop ((t.drop 3).takeWhile
            pyWhitespaceChar).length).takeWhile Char.isDigit = [] :=
          takeWhile_eq_nil_of_forall _ _ (fun x hx =>
            h x (List.mem_cons_of_mem c
              (List.mem_of_mem_drop (List.mem_of_mem_drop hx))))
        split
        · rfl
        · rw [hds]
          rfl
      · rfl
    · rfl

theorem pDotMatch_none {s : Text} (b : Bool)
    (h : ∀ c ∈ s, c.isDigit = false) : pDotMatch b s = none := by
  simp only [pDotMatch]
  split
  · rfl
  · split
    · next t =>
      have hds : ((t.drop (t.takeWhile pyWhitespaceChar).length).takeWhile
          Char.isDigit) = [] :=
        takeWhile_eq_nil_of_forall _ _ (fun x hx =>
          h x (List.mem_cons_of_mem 'p' (List.mem_cons_of_mem '.'
            (List.mem_of_mem_drop hx))))
      rw [hds]
      rfl
    · rfl

theorem urlMatch_none {s : Text} (h : ':' ∉ s) : urlMatch () s = none := by
  have h1 : ['h', 't', 't', 'p', 's', ':', '/', '/'].isPrefixOf s = false := by
    rw [Bool.eq_false_iff]
    intro hp
    exact h (( List.isPrefixOf_iff_prefix.mp hp).subset (by decide))
  have h2 : ['h', 't', 't', 'p', ':', '/', '/'].isPrefixOf s = false := by
    rw [Bool.eq_false_iff]
    intro hp
    exact h (( List.isPrefixOf_iff_prefix.mp hp).subset (by decide))
  simp [urlMatch, h1, h2]

theorem emailMatch_none {s : Text} (b : Bool) (h : '@' ∉ s) :
    emailMatch b s = none := by
  cases s with
  | nil => rfl
  | cons c tail =>
    simp only [emailMatch]
    split
    · rfl
    · split
      · rfl
      · split
        · next rest1 heq =>
          exact absurd (List.mem_of_mem_drop (heq ▸
            List.mem_cons_self '@' rest1)) h
        · rfl

theorem nlRunMatch_none {s : Text} (h : '\n' ∉ s) : nlRunMatch () s = none := by
  cases s with
  | nil => rfl
  | cons c t =>
    simp only [nlRunMatch]
    split
    · next t' heq =>
      rw [List.cons.injEq] at heq
      exact absurd (heq.1 ▸ List.mem_cons_self c t) h
    · rfl

theorem lowerStarts_false_of_contains {pat s : Text}
    (h : containsLowerSub pat s = false) : lowerStarts pat s = false := by
  cases s with
  | nil => exact h
  | cons c r =>
    simp only [containsLowerSub, Bool.or_eq_false_iff] at h
    exact h.1

theorem wordSubCIMatch_none {pat rep s : Text} (b : Bool)
    (h : containsLowerSub pat s = false) :
    wordSubCIMatch pat rep b s = none := by
  simp only [wordSubCIMatch]
  split
  · rfl
  · have hls : ((s.take pat.length).map Char.toLower == pat) = false :=
      lowerStarts_false_of_contains h
    simp only [hls, Bool.false_eq_true, if_false]

theorem clean_special_id : ∀ {s : Text},
    (∀ c ∈ s, replaceSpecialChar c = [c] ∧ isStrippedControl c = false) →
    clean_special_characters s = s := by
  intro s
  induction s with
  | nil => intro _; rfl
  | cons c r ih =>
    intro h
    have hc := h c (List.mem_cons_self c r)
    have hr := ih (fun x hx => h x (List.mem_cons_of_mem c hx))
    unfold clean_special_characters at hr ⊢
    rw [List.map_cons, List.flatten_cons, hc.1, List.singleton_append,
      List.filter_cons_of_pos (by simp [hc.2]), hr]

theorem fix_hyphenation_id {s : Text} (h : '\n' ∉ s) : fix_hyphenation s = s :=
  scanSub_eq_self _ _ (fun _ s' => '\n' ∉ s')
    (fun _ _ hP => hyphMatch_none hP)
    (fun _ c _ hP hm => hP (List.mem_cons_of_mem c hm)) s.length () s h

theorem remove_page_numbers_id {s : Text} (h : ∀ c ∈ s, c.isDigit = false) :
    remove_page_numbers s = s := by
  have h1 : scanSub lineStartStep digitLineMatch s.length true s = s :=
    scanSub_eq_self _ _ (fun _ s' => ∀ c ∈ s', c.isDigit = false)
      (fun st _ hP => digitLineMatch_none st hP)
      (fun _ c _ hP x hx => hP x (List.mem_cons_of_mem c hx)) _ _ _ h
  have h2 : scanSub prevWordStep pageNMatch s.length false s = s :=
    scanSub_eq_self _ _ (fun _ s' => ∀ c ∈ s', c.isDigit = false)
      (fun st _ hP => pageNMatch_none st hP)
      (fun _ c _ hP x hx => hP x (List.mem_cons_of_mem c hx)) _ _ _ h
  have h3 : scanSub prevWordStep pDotMatch s.length false s = s :=
    scanSub_eq_self _ _ (fun _ s' => ∀ c ∈ s', c.isDigit = false)
      (fun st _ hP => pDotMatch_none st hP)
      (fun _ c _ hP x hx => hP x (List.mem_cons_of_mem c hx)) _ _ _ h
  show scanSub prevWordStep pDotMatch
      (scanSub prevWordStep pageNMatch
        (scanSub lineStartStep digitLineMatch s.length true s).length false
        (scanSub lineStartStep digitLineMatch s.length true s)).length false
      (scanSub prevWordStep pageNMatch
        (scanSub lineStartStep digitLineMatch s.length true s).length false
        (scanSub lineStartStep digitLineMatch s.length true s)) = s
  rw [h1, h2, h3]

theorem remove_urls_and_emails_id {s : Text} (hc : ':' ∉ s) (ha : '@' ∉ s) :
    remove_urls_and_emails s = s := by
  have h1 : scanSub (fun _ _ => ()) urlMatch s.length () s = s :=
    scanSub_eq_self _ _ (fun _ s' => ':' ∉ s')
      (fun _ _ hP => urlMatch_none hP)
      (fun _ c _ hP hm => hP (List.mem_cons_of_mem c hm)) _ _ _ hc
  have h2 : scanSub prevWordStep emailMatch s.length false s = s :=
    scanSub_eq_self _ _ (fun _ s' => '@' ∉ s')
      (fun st _ hP => emailMatch_none st hP)
      (fun _ c _ hP hm => hP (List.mem_cons_of_mem c hm)) _ _ _ ha
  show scanSub prevWordStep emailMatch
      (scanSub (fun _ _ => ()) urlMatch s.length () s).length false
      (scanSub (fun _ _ => ()) urlMatch s.length () s) = s
  rw [h1, h2]

theorem contains_cons_false {pat : Text} {c : Char} {r : Text}
    (h : containsLowerSub pat (c :: r) = false) :
    containsLowerSub pat r = false := by
  simp only [containsLowerSub, Bool.or_eq_false_iff] at h
  exact h.2

theorem subWordCI_id {pat rep s : Text} (h : containsLowerSub pat s = false) :
    subWordCI pat rep s = s :=
  scanSub_eq_self _ _ (fun _ s' => containsLowerSub pat s' = false)
    (fun st _ hP => wordSubCIMatch_none st hP)
    (fun _ _ _ hP => contains_cons_false hP) s.length false s h

theorem normalize_medical_terms_id {s : Text}
    (h1 : containsLowerSub "dt1".toList s = false)
    (h2 : containsLowerSub "dt2".toList s = false)
    (h3 : containsLowerSub "hba1c".toList s = false)
    (h4 : containsLowerSub "imc".toList s = false) :
    normalize_medical_terms s = s := by
  show subWordCI "imc".toList "indice de masse corporelle".toList
      (subWordCI "hba1c".toList "hémoglobine glyquée".toList
        (subWordCI "dt2".toList "diabète de type 2".toList
          (subWordCI "dt1".toList "diabète de type 1".toList s))) = s
  rw [subWordCI_id h1, subWordCI_id h2, subWordCI_id h3, subWordCI_id h4]

theorem splitOnNl_single {s : Text} (h : '\n' ∉ s) : splitOnNl s = [s] := by
  induction s with
  | nil => rfl
  | cons c r ih =>
    have hc : c ≠ '\n' := fun hh => h (hh ▸ List.mem_cons_self c r)
    have hr := ih (fun hm => h (List.mem_cons_of_mem c hm))
    simp only [splitOnNl, if_neg hc, hr]

theorem remove_headers_footers_single {s : Text} (mr : Nat) (h : '\n' ∉ s)
    (hmr : 2 ≤ mr) : remove_headers_footers mr s = s := by
  show joinNl ((splitOnNl s).filter
    (fun l => !isRepetitiveLine ((splitOnNl s).map pyStrip) mr l)) = s
  rw [splitOnNl_single h]
  have hrep : isRepetitiveLine [pyStrip s] mr s = false := by
    show (!(pyStrip s).isEmpty && decide ((pyStrip s).length < 100) &&
      decide (mr ≤ ([pyStrip s] : List Text).count (pyStrip s))) = false
    have hcount : (([pyStrip s] : List Text).count (pyStrip s) : Nat) = 1 := by
      simp
    rw [hcount]
    have hd : decide (mr ≤ 1) = false := by
      simp only [decide_eq_false_iff_not]
      omega
    rw [hd]
    simp
  rw [List.filter_cons_of_pos
    (by simp only [List.map_singleton]; rw [hrep]; rfl), List.filter_nil]
  rfl

theorem collapseSpaces_subset : ∀ {s : Text} {x : Char},
    x ∈ collapseSpaces s → x ∈ s
  | [], _, h => h
  | [_], _, h => h
  | c :: d :: rest, x, h => by
    simp only [collapseSpaces] at h
    split at h
    · exact List.mem_cons_of_mem c (collapseSpaces_subset h)
    · rcases List.mem_cons.mp h with h1 | h2
      · exact h1 ▸ List.mem_cons_self c _
      · exact List.mem_cons_of_mem c (collapseSpaces_subset h2)

theorem pyStrip_subset {s : Text} {x : Char} (h : x ∈ pyStrip s) : x ∈ s := by
  unfold pyStrip at h
  rw [List.mem_reverse] at h
  have h1 := (List.dropWhile_sublist pyWhitespaceChar).subset h
  rw [List.mem_reverse] at h1
  exact (List.dropWhile_sublist pyWhitespaceChar).subset h1

theorem dropWhile_twice (p : Char → Bool) (l : Text) :
    (l.dropWhile p).dropWhile p = l.dropWhile p := by
  induction l with
  | nil => rfl
  | cons c r ih =>
    by_cases hc : p c = true
    · rw [List.dropWhile_cons, if_pos hc, ih]
    · rw [List.dropWhile_cons, if_neg hc, List.dropWhile_cons, if_neg hc]

theorem dropWhile_eq_self_of_head {p : Char → Bool} {l : Text}
    (h : ∀ c, l.head? = some c → p c = false) : l.dropWhile p = l := by
  cases l with
  | nil => rfl
  | cons c r =>
    rw [List.dropWhile_cons, if_neg]
    rw [h c rfl]
    simp

theorem head?_of_pref {l t : Text} (h : t <+: l) (hne : t ≠ []) :
    t.head? = l.head? := by
  obtain ⟨u, hu⟩ := h
  cases t with
  | nil => exact absurd rfl hne
  | cons c r => rw [← hu]; rfl

theorem head_dropWhile_false {p : Char → Bool} {l : Text} {c : Char}
    (h : (l.dropWhile p).head? = some c) : p c = false := by
  induction l with
  | nil => simp [List.dropWhile_nil] at h
  | cons a r ih =>
    by_cases ha : p a = true
    · rw [List.dropWhile_cons, if_pos ha] at h
      exact ih h
    · rw [List.dropWhile_cons, if_neg ha, List.head?_cons,
        Option.some.injEq] at h
      rw [← h]
      exact Bool.eq_false_iff.mpr ha

theorem pyStrip_idem (s : Text) : pyStrip (pyStrip s) = pyStrip s := by
  have hpre : ((s.dropWhile pyWhitespaceChar).reverse.dropWhile
      pyWhitespaceChar).reverse <+: s.dropWhile pyWhitespaceChar :=
    List.reverse_suffix.mp
      (by rw [List.reverse_reverse]; exact List.dropWhile_suffix _)
  have hfront : (((s.dropWhile pyWhitespaceChar).reverse.dropWhile
      pyWhitespaceChar).reverse).dropWhile pyWhitespaceChar =
      ((s.dropWhile pyWhitespaceChar).reverse.dropWhile
        pyWhitespaceChar).reverse := by
    apply dropWhile_eq_self_of_head
    intro c hc
    have hne : ((s.dropWhile pyWhitespaceChar).reverse.dropWhile
        pyWhitespaceChar).reverse ≠ [] := by
      intro hnil
      rw [hnil] at hc
      exact absurd hc (by simp)
    rw [head?_of_pref hpre hne] at hc
    exact head_dropWhile_false hc
  show ((((pyStrip s).dropWhile pyWhitespaceChar).reverse.dropWhile
    pyWhitespaceChar).reverse) = pyStrip s
  show (((((s.dropWhile pyWhitespaceChar).reverse.dropWhile
    pyWhitespaceChar).reverse).dropWhile pyWhitespaceChar).reverse.dropWhile
    pyWhitespaceChar).reverse = pyStrip s
  rw [hfront, List.reverse_reverse, dropWhile_twice]
  rfl

theorem hasDoubleSpace_iff_within : ∀ l : Text,
    hasDoubleSpace l = true ↔ ([' ', ' '] : Text) <:+: l
  | [] => by
    constructor
    · intro h
      exact absurd h (by simp [hasDoubleSpace])
    · intro h
      have := h.length_le
      simp at this
  | [c] => by
    constructor
    · intro h
      exact absurd h (by simp [hasDoubleSpace])
    · intro h
      have := h.length_le
      simp at this
  | c :: d :: rest => by
    show ((c == ' ' && d == ' ') || hasDoubleSpace (d :: rest)) = true ↔ _
    rw [List.infix_cons_iff, Bool.or_eq_true]
    constructor
    · intro h
      rcases h with h1 | h2
      · left
        rw [Bool.and_eq_true] at h1
        obtain ⟨hc, hd⟩ := h1
        rw [eq_of_beq hc, eq_of_beq hd]
        exact ⟨rest, rfl⟩
      · right
        exact (hasDoubleSpace_iff_within (d :: rest)).mp h2
    · intro h
      rcases h with h1 | h2
      · left
        obtain ⟨u, hu⟩ := h1
        rw [List.cons_append, List.cons_append, List.nil_append] at hu
        obtain ⟨hc, hrest⟩ := List.cons.inj hu
        obtain ⟨hd, -⟩ := List.cons.inj hrest
        rw [← hc, ← hd]
        simp
      · right
        exact (hasDoubleSpace_iff_within (d :: rest)).mpr h2

theorem collapseSpaces_head? : ∀ s : Text, (collapseSpaces s).head? = s.head?
  | [] => rfl
  | [_] => rfl
  | c :: d :: rest => by
    simp only [collapseSpaces]
    split
    · next hcd =>
      rw [collapseSpaces_head? (d :: rest)]
      rw [Bool.and_eq_true] at hcd
      obtain ⟨hc, hd⟩ := hcd
      rw [List.head?_cons, List.head?_cons, eq_of_beq hc, eq_of_beq hd]
    · rfl

theorem hasDoubleSpace_collapse : ∀ s : Text,
    hasDoubleSpace (collapseSpaces s) = false
  | [] => rfl
  | [_] => rfl
  | c :: d :: rest => by
    simp only [collapseSpaces]
    split
    · exact hasDoubleSpace_collapse (d :: rest)
    · next hcd =>
      cases hX : collapseSpaces (d :: rest) with
      | nil => rfl
      | cons d' r' =>
        have hd' : d' = d := by
          have hh := collapseSpaces_head? (d :: rest)
          rw [hX, List.head?_cons, List.head?_cons, Option.some.injEq] at hh
          exact hh
        have hrest := hasDoubleSpace_collapse (d :: rest)
        rw [hX] at hrest
        show ((c == ' ' && d' == ' ') || hasDoubleSpace (d' :: r')) = false
        rw [hrest, hd', Bool.or_false]
        exact Bool.not_eq_true _ ▸ hcd

theorem collapseSpaces_of_no_double : ∀ {s : Text}, hasDoubleSpace s = false →
    collapseSpaces s = s
  | [], _ => rfl
  | [_], _ => rfl
  | c :: d :: rest, h => by
    have h' : ((c == ' ' && d == ' ') || hasDoubleSpace (d :: rest)) = false := h
    rw [Bool.or_eq_false_iff] at h'
    simp only [collapseSpaces, h'.1, Bool.false_eq_true, if_false]
    rw [collapseSpaces_of_no_double h'.2]

theorem pyStrip_within (l : Text) : pyStrip l <:+: l := by
  have h1 : l.dropWhile pyWhitespaceChar <:+ l := List.dropWhile_suffix _
  have h2 : ((l.dropWhile pyWhitespaceChar).reverse.dropWhile
      pyWhitespaceChar).reverse <+: l.dropWhile pyWhitespaceChar :=
    List.reverse_suffix.mp
      (by rw [List.reverse_reverse]; exact List.dropWhile_suffix _)
  exact h2.isInfix.trans h1.isInfix

theorem collapseSpaces_strip_collapse (s : Text) :
    collapseSpaces (pyStrip (collapseSpaces s)) = pyStrip (collapseSpaces s) := by
  apply collapseSpaces_of_no_double
  rw [← Bool.not_eq_true]
  intro hds
  have hinf := (hasDoubleSpace_iff_within _).mp hds
  have h2 := (hasDoubleSpace_iff_within (collapseSpaces s)).mpr
    (hinf.trans (pyStrip_within _))
  rw [hasDoubleSpace_collapse] at h2
  exact absurd h2 (by simp)

theorem lowerStarts_iff_pref {pat s : Text} :
    lowerStarts pat s = true ↔ pat <+: s.map Char.toLower := by
  unfold lowerStarts
  rw [beq_iff_eq]
  constructor
  · intro h
    rw [List.prefix_iff_eq_take, ← List.map_take, h]
  · intro h
    rw [List.prefix_iff_eq_take, ← List.map_take] at h
    exact h.symm

theorem containsLowerSub_iff_within : ∀ {s pat : Text},
    containsLowerSub pat s = true ↔ pat <:+: s.map Char.toLower := by
  intro s
  induction s with
  | nil =>
    intro pat
    show lowerStarts pat [] = true ↔ _
    rw [lowerStarts_iff_pref]
    simp
  | cons c r ih =>
    intro pat
    show (lowerStarts pat (c :: r) || containsLowerSub pat r) = true ↔ _
    rw [List.map_cons, List.infix_cons_iff, Bool.or_eq_true,
      lowerStarts_iff_pref, ih, List.map_cons]

theorem containsLowerSub_of_within {pat t u : Text} (hinf : t <:+: u)
    (h : containsLowerSub pat t = true) : containsLowerSub pat u = true := by
  rw [containsLowerSub_iff_within] at h ⊢
  exact h.trans (hinf.map Char.toLower)

theorem lowerStarts_cons {p : Char} {ps : Text} {c : Char} {X : Text} :
    lowerStarts (p :: ps) (c :: X) = (Char.toLower c == p && lowerStarts ps X) := by
  unfold lowerStarts
  rw [List.length_cons, List.take_succ_cons, List.map_cons]
  rfl

theorem lowerStarts_collapse : ∀ (v pat : Text), (∀ c ∈ pat, c ≠ ' ') →
    lowerStarts pat (collapseSpaces v) = true → lowerStarts pat v = true
  | [], _, _, h => h
  | [_], _, _, h => h
  | c :: d :: rest, pat, hp, h => by
    have hbody := h
    simp only [collapseSpaces] at hbody
    split at hbody
    · next hcd =>
      have hps := lowerStarts_collapse (d :: rest) pat hp hbody
      cases pat with
      | nil => rfl
      | cons p ps =>
        rw [lowerStarts_cons, Bool.and_eq_true] at hps
        obtain ⟨h1, -⟩ := hps
        rw [Bool.and_eq_true] at hcd
        have hd : d = ' ' := eq_of_beq hcd.2
        rw [hd] at h1
        have hps' : p = ' ' := (eq_of_beq h1).symm
        exact absurd hps' (hp p (List.mem_cons_self p ps))
    · cases pat with
      | nil => rfl
      | cons p ps =>
        rw [lowerStarts_cons, Bool.and_eq_true] at hbody
        obtain ⟨h1, h2⟩ := hbody
        rw [lowerStarts_cons, Bool.and_eq_true]
        exact ⟨h1, lowerStarts_collapse (d :: rest) ps
          (fun x hx => hp x (List.mem_cons_of_mem p hx)) h2⟩

theorem containsLowerSub_collapse : ∀ (v pat : Text), (∀ c ∈ pat, c ≠ ' ') →
    containsLowerSub pat (collapseSpaces v) = true →
    containsLowerSub pat v = true
  | [], _, _, h => h
  | [_], _, _, h => h
  | c :: d :: rest, pat, hp, h => by
    have hbody := h
    simp only [collapseSpaces] at hbody
    split at hbody
    · have hr := containsLowerSub_collapse (d :: rest) pat hp hbody
      show (lowerStarts pat (c :: d :: rest) ||
        containsLowerSub pat (d :: rest)) = true
      rw [hr, Bool.or_true]
    · rw [show containsLowerSub pat (c :: collapseSpaces (d :: rest)) =
        (lowerStarts pat (c :: collapseSpaces (d :: rest)) ||
          containsLowerSub pat (collapseSpaces (d :: rest))) from rfl,
        Bool.or_eq_true] at hbody
      rcases hbody with h1 | h2
      · cases pat with
        | nil =>
          show (lowerStarts [] (c :: d :: rest) || _) = true
          rw [show lowerStarts [] (c :: d :: rest) = true from rfl,
            Bool.true_or]
        | cons p ps =>
          rw [lowerStarts_cons, Bool.and_eq_true] at h1
          obtain ⟨ha, hb⟩ := h1
          have hps := lowerStarts_collapse (d :: rest) ps
            (fun x hx => hp x (List.mem_cons_of_mem p hx)) hb
          show (lowerStarts (p :: ps) (c :: d :: rest) || _) = true
          rw [lowerStarts_cons, ha, hps, Bool.and_true, Bool.true_or]
      · have hr := containsLowerSub_collapse (d :: rest) pat hp h2
        show (_ || containsLowerSub pat (d :: rest)) = true
        rw [hr, Bool.or_true]

theorem clean_whitespace_single {s : Text} (h : '\n' ∉ s) :
    clean_whitespace s = pyStrip (collapseSpaces s) := by
  have h1 : '\n' ∉ collapseSpaces s := fun hm => h (collapseSpaces_subset hm)
  have h2 : scanSub (fun _ _ => ()) nlRunMatch (collapseSpaces s).length ()
      (collapseSpaces s) = collapseSpaces s :=
    scanSub_eq_self _ _ (fun _ s' => '\n' ∉ s')
      (fun _ _ hP => nlRunMatch_none hP)
      (fun _ c _ hP hm => hP (List.mem_cons_of_mem c hm)) _ _ _ h1
  show pyStrip (joinNl ((splitOnNl (scanSub (fun _ _ => ()) nlRunMatch
      (collapseSpaces s).length () (collapseSpaces s))).map pyStrip)) =
    pyStrip (collapseSpaces s)
  rw [h2, splitOnNl_single h1, List.map_singleton]
  show pyStrip (pyStrip (collapseSpaces s)) = pyStrip (collapseSpaces s)
  exact pyStrip_idem _

/-- On a tame text the whole pipeline reduces to the final whitespace
normalization, which itself reduces to collapsing spaces and stripping. -/
theorem cleanPipeline_tame (ru nm : Bool) (mr : Nat) (hmr : 2 ≤ mr) {s : Text}
    (hs : TameText s) :
    cleanPipeline ru nm mr s = pyStrip (collapseSpaces s) := by
  obtain ⟨hnl, hdig, hcol, hat, hspec, hp1, hp2, hp3, hp4⟩ := hs
  show clean_whitespace
    (if nm then
      normalize_medical_terms
        (if ru then
          remove_urls_and_emails
            (remove_headers_footers mr (remove_page_numbers
              (fix_hyphenation (clean_special_characters s))))
        else
          remove_headers_footers mr (remove_page_numbers
            (fix_hyphenation (clean_special_characters s))))
     else
      (if ru then
        remove_urls_and_emails
          (remove_headers_footers mr (remove_page_numbers
            (fix_hyphenation (clean_special_characters s))))
      else
        remove_headers_footers mr (remove_page_numbers
          (fix_hyphenation (clean_special_characters s))))) =
    pyStrip (collapseSpaces s)
  rw [clean_special_id hspec, fix_hyphenation_id hnl,
    remove_page_numbers_id hdig, remove_headers_footers_single mr hnl hmr,
    remove_urls_and_emails_id hcol hat, ite_self,
    normalize_medical_terms_id hp1 hp2 hp3 hp4, ite_self]
  exact clean_whitespace_single hnl

/-- Tameness is preserved by one pass of the pipeline (which, on tame
texts, is space-collapsing followed by stripping). -/
theorem TameText_strip_collapse {s : Text} (hs : TameText s) :
    TameText (pyStrip (collapseSpaces s)) := by
  obtain ⟨hnl, hdig, hcol, hat, hspec, hp1, hp2, hp3, hp4⟩ := hs
  have hsub : ∀ x, x ∈ pyStrip (collapseSpaces s) → x ∈ s :=
    fun x hx => collapseSpaces_subset (pyStrip_subset hx)
  have htrans : ∀ pat : Text, (∀ c ∈ pat, c ≠ ' ') →
      containsLowerSub pat s = false →
      containsLowerSub pat (pyStrip (collapseSpaces s)) = false := by
    intro pat hpat hfalse
    rw [← Bool.not_eq_true]
    intro htrue
    have h1 : containsLowerSub pat (collapseSpaces s) = true :=
      containsLowerSub_of_within (pyStrip_within _) htrue
    have h2 := containsLowerSub_collapse s pat hpat h1
    rw [hfalse] at h2
    exact absurd h2 (by simp)
  exact ⟨fun hm => hnl (hsub _ hm), fun c hc => hdig c (hsub c hc),
    fun hm => hcol (hsub _ hm), fun hm => hat (hsub _ hm),
    fun c hc => hspec c (hsub c hc),
    htrans _ (by decide) hp1, htrans _ (by decide) hp2,
    htrans _ (by decide) hp3, htrans _ (by decide) hp4⟩

/-- C1 (amended): `clean_document` is not idempotent in general
(`C1_counterexample`); it is idempotent for every option set with
`min_repetition ≥ 2` on documents whose text is a single line containing
no digit, colon, at-sign, special/control character, and no
case-insensitive occurrence of DT1, DT2, HbA1c or IMC — on such documents
one pass reduces to whitespace normalization, which is idempotent. -/
theorem C1_idempotent_on_tame :
    ∀ (ru nm : Bool) (mr : Nat) (d : Document), 2 ≤ mr → TameText d.text →
      (clean_document ru nm mr (clean_document ru nm mr d)).text =
        (clean_document ru nm mr d).text := by
  intro ru nm mr d hmr ht
  show cleanPipeline ru nm mr (cleanPipeline ru nm mr d.text) =
    cleanPipeline ru nm mr d.text
  rw [cleanPipeline_tame ru nm mr hmr ht,
    cleanPipeline_tame ru nm mr hmr (TameText_strip_collapse ht),
    collapseSpaces_strip_collapse, pyStrip_idem]

theorem C1_idempotent_on_tame_witness :
    (clean_document true true 3
        (clean_document true true 3 ⟨"Bonjour  le monde".toList, []⟩)).text =
      (clean_document true true 3 ⟨"Bonjour  le monde".toList, []⟩).text :=
  C1_idempotent_on_tame true true 3 ⟨"Bonjour  le monde".toList, []⟩
    (by omega) (by unfold TameText; decide)

end DiabeteRag
